import Mathlib

/-!
Shallow embedding of `src/zoo_simulator.cpp` (a single-file zoo-management
simulation) and proofs about it.

Modelling conventions:
* C++ `double` fields (money, popularity, weight, loan amounts) are modelled
  as `ℚ`; `int` fields as `Int`.
* `rand()` is modelled by an oracle `g : Nat → Nat` together with an explicit
  consumption counter `k`: the n-th call of `rand()` returns `g n`.
  `Zoo::random(min,max)` is `min + rand() % (max-min+1)`, see `randomInt`.
* `std::shuffle` in `Zoo::refreshMarket` uses a separate `std::mt19937`
  generator; it is modelled by a parameter `σ : List Nat`, the shuffled index
  vector (a permutation of `0..9`).
* The static id counter `Animal::nextId` is threaded through the `Zoo` state
  as the field `nextAnimalId`.
* C++ truncating integer division (`/` on `int`, `static_cast<int>` on a
  non-negative `double`) is `Int.tdiv`.
* Interactive input validation (`getValidInput(lo,hi)`) appears as range
  guards on the corresponding operation arguments; an invalid or cancelled
  interaction leaves the state unchanged.
-/

namespace ZooSim

/-- `enum class AnimalType`. -/
inductive AnimalType where
  | HERBIVORE
  | CARNIVORE
deriving DecidableEq, Repr

/-- `enum class Climate`. -/
inductive Climate where
  | TROPICAL
  | TEMPERATE
  | ARCTIC
deriving DecidableEq, Repr

/-- `enum class Gender`. -/
inductive Gender where
  | MALE
  | FEMALE
deriving DecidableEq, Repr

/-- `enum class WorkerType`. -/
inductive WorkerType where
  | DIRECTOR
  | VETERINARIAN
  | CLEANER
  | FEEDER
deriving DecidableEq, Repr

/-- `class Animal` (data part; the static counter `nextId` is threaded through
`Zoo.nextAnimalId`). -/
structure Animal where
  species : String
  displayName : String
  ageDays : Int
  weight : ℚ
  preferredClimate : Climate
  price : Int
  type : AnimalType
  enclosureId : Int
  daysSincePurchase : Int
  gender : Gender
  isBornInZoo : Bool
  parents : String × String
  isSick : Bool
  uniqueId : Int
deriving DecidableEq, Repr

/-- `class Enclosure`. The C++ object stores full copies of its resident
animals in `vector<Animal> animals`. -/
structure Enclosure where
  id : Int
  capacity : Int
  animalType : AnimalType
  climate : Climate
  dailyCost : Int
  animals : List Animal
deriving DecidableEq, Repr

/-- `class Worker`. -/
structure Worker where
  name : String
  type : WorkerType
  salary : Int
  assignedEnclosures : List Int
  daysAssigned : Int
  daysWorked : Int
  maxAnimals : Int
deriving DecidableEq, Repr

/-- `class Loan`. `dailyRepayment` is computed once in the constructor,
see `mkLoan`. -/
structure Loan where
  principal : ℚ
  days : Int
  dailyInterestRate : ℚ
  dailyRepayment : ℚ
  daysLeft : Int
deriving DecidableEq, Repr

/-- `Loan::Loan(p, d, rate)`: `dailyRepayment = (p + p*rate*d) / d`,
`daysLeft = d`.  (The constructor rejects `d ≤ 0`; all call sites pass
`1 ≤ d ≤ 20`.) -/
def mkLoan (p : ℚ) (d : Int) (rate : ℚ) : Loan :=
  { principal := p
    days := d
    dailyInterestRate := rate
    dailyRepayment := (p + p * rate * (d : ℚ)) / (d : ℚ)
    daysLeft := d }

/-- `Loan::getRemainingDebt`. -/
def Loan.getRemainingDebt (l : Loan) : ℚ := l.dailyRepayment * (l.daysLeft : ℚ)

/-- `Worker::getSalaryForType`. -/
def getSalaryForType (t : WorkerType) : Int :=
  match t with
  | WorkerType.DIRECTOR => 60
  | WorkerType.VETERINARIAN => 50
  | WorkerType.CLEANER => 30
  | WorkerType.FEEDER => 40

/-- `Zoo::random(min, max) = min + rand() % (max - min + 1)`, threaded on the
`rand()` consumption counter. -/
def randomInt (g : Nat → Nat) (lo hi : Int) (k : Nat) : Int × Nat :=
  (lo + ((g k % (hi - lo + 1).toNat : Nat) : Int), k + 1)

/-- `Enclosure::canAddAnimal`: free capacity, matching diet class and
matching climate. -/
def canAddAnimal (e : Enclosure) (a : Animal) : Bool :=
  decide ((e.animals.length : Int) < e.capacity) &&
    decide (a.type = e.animalType) &&
    decide (a.preferredClimate = e.climate)

/-- `Enclosure::removeAnimal` on the first enclosure of the list whose id
matches (the caller loops over `enclosures` and `break`s at the first id
match); `removeAnimal` erases every stored copy with the given unique id. -/
def removeAnimalFromEnclosures : List Enclosure → Int → Int → List Enclosure
  | [], _, _ => []
  | e :: rest, eid, uid =>
    if e.id = eid then
      { e with animals := e.animals.filter (fun a => decide (a.uniqueId ≠ uid)) } :: rest
    else
      e :: removeAnimalFromEnclosures rest eid uid

/-- `Enclosure::updateAnimal`: replace the first stored copy with the same
unique id. -/
def updateAnimalList : List Animal → Animal → List Animal
  | [], _ => []
  | b :: rest, a =>
    if b.uniqueId = a.uniqueId then a :: rest else b :: updateAnimalList rest a

/-- `Enclosure::updateAnimal` on the first enclosure of the list whose id
matches the animal's enclosure id (callers loop and `break` at the first id
match). -/
def updateAnimalInEnclosures : List Enclosure → Animal → List Enclosure
  | [], _ => []
  | e :: rest, a =>
    if e.id = a.enclosureId then
      { e with animals := updateAnimalList e.animals a } :: rest
    else
      e :: updateAnimalInEnclosures rest a

/-- `Enclosure::addAnimal` (`push_back`) on the first enclosure of the list
whose id matches the animal's enclosure id. -/
def addAnimalToEnclosures : List Enclosure → Animal → List Enclosure
  | [], _ => []
  | e :: rest, a =>
    if e.id = a.enclosureId then
      { e with animals := e.animals ++ [a] } :: rest
    else
      e :: addAnimalToEnclosures rest a

/-- `Animal::operator+` (breeding rule).  Returns `none` where the C++ code
throws (different enclosures, same sex, or either parent aged `≤ 5`); on
success builds the newborn.  `r` is the `rand()` draw for the sex and `nid`
the next value of the static id counter. -/
def animalAdd (a b : Animal) (r : Nat) (nid : Int) : Option Animal :=
  if a.enclosureId ≠ b.enclosureId ∨ a.gender = b.gender ∨
      a.ageDays ≤ 5 ∨ b.ageDays ≤ 5 then
    none
  else
    let newSpecies :=
      a.species.take (a.species.length / 2) ++
        b.species.drop (b.species.length / 2)
    some
      { species := newSpecies
        displayName := newSpecies ++ "_Новорождённый"
        ageDays := 0
        weight := (a.weight + b.weight) / 4
        preferredClimate := a.preferredClimate
        price := Int.tdiv (a.price + b.price) 2
        type := a.type
        enclosureId := a.enclosureId
        daysSincePurchase := 0
        gender := if r % 2 = 0 then Gender.MALE else Gender.FEMALE
        isBornInZoo := true
        parents := (a.displayName, b.displayName)
        isSick := false
        uniqueId := nid }

/-- One catalog entry of `Zoo::getAvailableAnimals`: the fixed template plus
the per-instantiation sex draw `rand() % 2 ? MALE : FEMALE` and a fresh
unique id. -/
def mkCatalogAnimal (sp : String) (age : Int) (w : ℚ) (c : Climate) (p : Int)
    (t : AnimalType) (r : Nat) (uid : Int) : Animal :=
  { species := sp
    displayName := sp
    ageDays := age
    weight := w
    preferredClimate := c
    price := p
    type := t
    enclosureId := -1
    daysSincePurchase := 0
    gender := if r % 2 ≠ 0 then Gender.MALE else Gender.FEMALE
    isBornInZoo := false
    parents := ("None", "None")
    isSick := false
    uniqueId := uid }

/-- `Zoo::getAvailableAnimals`: the fixed ten-species master catalog.  Each
call instantiates the ten templates left to right, consuming ten `rand()`
draws (for the sexes) and ten fresh unique ids. -/
def getAvailableAnimals (g : Nat → Nat) (k : Nat) (nid : Int) :
    List Animal × Nat × Int :=
  ([ mkCatalogAnimal "Олень" 10 200 Climate.TEMPERATE 150 AnimalType.HERBIVORE (g k) nid,
     mkCatalogAnimal "Слон" 15 6000 Climate.TROPICAL 350 AnimalType.HERBIVORE (g (k+1)) (nid+1),
     mkCatalogAnimal "Жираф" 12 1800 Climate.TROPICAL 300 AnimalType.HERBIVORE (g (k+2)) (nid+2),
     mkCatalogAnimal "Зебра" 8 400 Climate.TROPICAL 200 AnimalType.HERBIVORE (g (k+3)) (nid+3),
     mkCatalogAnimal "Кролик" 3 5 Climate.TEMPERATE 100 AnimalType.HERBIVORE (g (k+4)) (nid+4),
     mkCatalogAnimal "Лев" 10 300 Climate.TROPICAL 400 AnimalType.CARNIVORE (g (k+5)) (nid+5),
     mkCatalogAnimal "Волк" 7 150 Climate.TEMPERATE 250 AnimalType.CARNIVORE (g (k+6)) (nid+6),
     mkCatalogAnimal "Белый медведь" 14 800 Climate.ARCTIC 450 AnimalType.CARNIVORE (g (k+7)) (nid+7),
     mkCatalogAnimal "Тигр" 9 350 Climate.TROPICAL 350 AnimalType.CARNIVORE (g (k+8)) (nid+8),
     mkCatalogAnimal "Лисица" 5 100 Climate.TEMPERATE 200 AnimalType.CARNIVORE (g (k+9)) (nid+9) ],
   k + 10, nid + 10)

/-- The selection loop of `Zoo::refreshMarket`:
`for i < min(10, available.size()): push_back(available[indices[i]])`,
where `σ` is the shuffled index vector (length 10 in the program). -/
def pickMarket (avail : List Animal) (σ : List Nat) : List Animal :=
  (σ.take (min 10 avail.length)).filterMap avail.get?

/-- `struct Zoo` state.  `nextAnimalId` threads the static `Animal::nextId`
counter. -/
structure Zoo where
  name : String
  money : ℚ
  food : Int
  popularity : ℚ
  animals : List Animal
  enclosures : List Enclosure
  workers : List Worker
  loans : List Loan
  day : Int
  visitors : Int
  totalAnimals : Int
  specialVisitorType : String
  specialVisitorCount : Int
  marketAnimals : List Animal
  animalsBoughtToday : Int
  nextAnimalId : Int
deriving Repr, DecidableEq

/-- `Zoo::refreshMarket`: regenerate the catalog (consuming ten `rand()`
draws and ten ids), shuffle (`σ`), and replace the offer list with the
selected prefix.  The old offer list is discarded (`marketAnimals.clear()`). -/
def refreshMarket (g : Nat → Nat) (σ : List Nat) (z : Zoo) : Zoo :=
  let A := getAvailableAnimals g 0 z.nextAnimalId
  { z with marketAnimals := pickMarket A.1 σ, nextAnimalId := A.2.2 }

/-- The initial enclosure built by the `Zoo` constructor:
`Enclosure(1, 5, HERBIVORE, TEMPERATE, 10)`. -/
def initialEnclosure : Enclosure :=
  { id := 1, capacity := 5, animalType := AnimalType.HERBIVORE,
    climate := Climate.TEMPERATE, dailyCost := 10, animals := [] }

/-- The four workers hired by the `Zoo` constructor. -/
def initialWorkers : List Worker :=
  [ { name := "К.З", type := WorkerType.DIRECTOR,
      salary := getSalaryForType WorkerType.DIRECTOR,
      assignedEnclosures := [], daysAssigned := 0, daysWorked := 0, maxAnimals := 0 },
    { name := "тринити", type := WorkerType.CLEANER,
      salary := getSalaryForType WorkerType.CLEANER,
      assignedEnclosures := [1], daysAssigned := 0, daysWorked := 0, maxAnimals := 0 },
    { name := "морф", type := WorkerType.VETERINARIAN,
      salary := getSalaryForType WorkerType.VETERINARIAN,
      assignedEnclosures := [], daysAssigned := 0, daysWorked := 0, maxAnimals := 20 },
    { name := "диференс", type := WorkerType.FEEDER,
      salary := getSalaryForType WorkerType.FEEDER,
      assignedEnclosures := [2], daysAssigned := 0, daysWorked := 0, maxAnimals := 0 } ]

/-- `Zoo::Zoo(name)`: money 1488, food 100, popularity 50, day 1, the four
initial workers, one enclosure, then `refreshMarket()` (consuming the first
ten `rand()` draws and ids 1..10 of the fresh id counter). -/
def mkZoo (name : String) (g : Nat → Nat) (σ : List Nat) : Zoo :=
  refreshMarket g σ
    { name := name, money := 1488, food := 100, popularity := 50,
      animals := [], enclosures := [initialEnclosure],
      workers := initialWorkers, loans := [],
      day := 1, visitors := 0, totalAnimals := 0,
      specialVisitorType := "None", specialVisitorCount := 0,
      marketAnimals := [], animalsBoughtToday := 0, nextAnimalId := 1 }

/-- The enclosure-search of the purchase placement loop: first enclosure with
matching id that can accept the animal; `none` when no enclosure matches. -/
def placeAnimal : List Enclosure → Animal → Int → Option (List Enclosure)
  | [], _, _ => none
  | e :: rest, a, encId =>
    if e.id = encId ∧ canAddAnimal e a then
      some ({ e with animals := e.animals ++ [a] } :: rest)
    else
      (placeAnimal rest a encId).map (e :: ·)

/-- `manageAnimals`, choice 1 (buy): a single completed purchase attempt of
market offer `idx` into enclosure `encId`.  Returns the zoo unchanged on any
declined path (daily purchase throttle, empty market/invalid offer index,
insufficient funds, no suitable enclosure, wrong enclosure id).  The first
enclosure with `getId() == encId` and `canAddAnimal(selected)` receives the
animal; `selected.setEnclosureId` happens just before `addAnimal` (and
`canAddAnimal` never reads the enclosure-id field, so checking the updated
animal is equivalent to the source's check on the not-yet-updated one). -/
def purchase (z : Zoo) (idx : Nat) (encId : Int) : Zoo :=
  if z.day > 10 ∧ z.animalsBoughtToday ≥ 1 then z
  else
    match z.marketAnimals.get? idx with
    | none => z
    | some sel =>
      if (sel.price : ℚ) ≤ z.money then
        if z.enclosures.any (fun e => canAddAnimal e sel) then
          let sel2 := { sel with enclosureId := encId }
          match placeAnimal z.enclosures sel2 encId with
          | none => z
          | some encs2 =>
            { z with enclosures := encs2,
                     animals := z.animals ++ [sel2],
                     money := z.money - (sel.price : ℚ),
                     totalAnimals := z.totalAnimals + 1,
                     animalsBoughtToday := z.animalsBoughtToday + 1,
                     marketAnimals := z.marketAnimals.eraseIdx idx }
        else z
      else z

/-- `manageAnimals`, choice 2 (sell): sell the animal at registry index
`idx`; credit half the purchase price (integer division), erase the animal
from its enclosure and from the registry, decrement the total counter. -/
def sell (z : Zoo) (idx : Nat) : Zoo :=
  match z.animals.get? idx with
  | none => z
  | some sold =>
    { z with money := z.money + ((Int.tdiv sold.price 2 : Int) : ℚ),
             enclosures := removeAnimalFromEnclosures z.enclosures sold.enclosureId sold.uniqueId,
             animals := z.animals.eraseIdx idx,
             totalAnimals := z.totalAnimals - 1 }

/-- `manageAnimals`, choice 4 (rename): set the display name of the animal at
registry index `idx` and resynchronise the stored copy in its enclosure.
An empty name is rejected. -/
def renameAnimal (z : Zoo) (idx : Nat) (newName : String) : Zoo :=
  if newName = "" then z
  else
    match z.animals.get? idx with
    | none => z
    | some a =>
      let a2 := { a with displayName := newName }
      { z with animals := z.animals.set idx a2,
               enclosures := updateAnimalInEnclosures z.enclosures a2 }

/-- The distinct declined-action outcomes of `manageBreeding`, choice 1.
`differentEnclosures` is the early same-enclosure check, `ineligible` the
`runtime_error` thrown by `Animal::operator+`; `noSpace` is the free-space
pre-check (`canAddAnimal`) on the shared enclosure. -/
inductive BreedErr where
  | notEnoughAnimals
  | sameAnimal
  | badIndex
  | differentEnclosures
  | noSpace
  | ineligible
deriving DecidableEq, Repr

/-- The two pairing-rule failures of breeding (spec taxonomy
`IneligiblePairing`): the early enclosure-mismatch check and the
`operator+` throw.  The capacity failure `noSpace` is a placement error,
not a pairing error. -/
def BreedErr.isPairingError : BreedErr → Bool
  | BreedErr.differentEnclosures => true
  | BreedErr.ineligible => true
  | _ => false

/-- `manageBreeding`, choice 1: one completed breeding attempt of the
registry animals at indices `i` and `j`, with `r` the `rand()` draw for the
newborn's sex.  On success the newborn joins the parents' enclosure and the
registry and the total counter is incremented. -/
def zooBreed (z : Zoo) (i j : Nat) (r : Nat) : Except BreedErr Zoo :=
  if z.animals.length < 2 then Except.error BreedErr.notEnoughAnimals
  else if i = j then Except.error BreedErr.sameAnimal
  else
    match z.animals.get? i, z.animals.get? j with
    | some a, some b =>
      if a.enclosureId ≠ b.enclosureId then Except.error BreedErr.differentEnclosures
      else if z.enclosures.any (fun e => decide (e.id = a.enclosureId) && canAddAnimal e a) then
        match animalAdd a b r z.nextAnimalId with
        | none => Except.error BreedErr.ineligible
        | some newborn =>
          Except.ok
            { z with enclosures := addAnimalToEnclosures z.enclosures newborn,
                     animals := z.animals ++ [newborn],
                     totalAnimals := z.totalAnimals + 1,
                     nextAnimalId := z.nextAnimalId + 1 }
      else Except.error BreedErr.noSpace
    | _, _ => Except.error BreedErr.badIndex

/-- The state transition of a breeding attempt: a declined attempt leaves the
zoo unchanged. -/
def applyBreed (z : Zoo) (i j : Nat) (r : Nat) : Zoo :=
  match zooBreed z i j r with
  | Except.ok z2 => z2
  | Except.error _ => z

/-- `manageEnclosures`, choice 1 (build): capacity from `getValidInput(1,100)`,
cost `capacity * 50`, new id `enclosures.back().getId() + 1` (or 1 when there
is no enclosure), daily cost `capacity * 2`.  Declined without mutation on
insufficient funds. -/
def buildEnclosure (z : Zoo) (cap : Int) (t : AnimalType) (c : Climate) : Zoo :=
  if 1 ≤ cap ∧ cap ≤ 100 then
    if ((cap * 50 : Int) : ℚ) ≤ z.money then
      let newId : Int :=
        match z.enclosures.getLast? with
        | none => 1
        | some e => e.id + 1
      { z with enclosures := z.enclosures ++
                 [{ id := newId, capacity := cap, animalType := t, climate := c,
                    dailyCost := cap * 2, animals := [] }],
               money := z.money - ((cap * 50 : Int) : ℚ) }
    else z
  else z

/-- `Worker::assignEnclosure`: append if not already present. -/
def assignEnclosureL (l : List Int) (encId : Int) : List Int :=
  if encId ∈ l then l else l ++ [encId]

/-- `maxAnimals` fixed at hiring: 20 for a veterinarian, 0 otherwise. -/
def maxAnimalsFor (t : WorkerType) : Int :=
  if t = WorkerType.VETERINARIAN then 20 else 0

/-- The cleaner sub-flow of hiring: exactly one enclosure id, assigned only
when it exists. -/
def hireAssignCleaner (encs : List Enclosure) (encId : Int) : List Int :=
  if encs.any (fun e => decide (e.id = encId)) then [encId] else []

/-- The feeder sub-flow of hiring: up to two rounds; each round an id, `0`
ends the loop, an id of an existing enclosure is assigned (duplicates are
ignored by `assignEnclosure`). -/
def feederLoop (encs : List Enclosure) : List Int → Nat → List Int → List Int
  | _, 0, acc => acc
  | [], _, acc => acc
  | r :: rest, n + 1, acc =>
    if r = 0 then acc
    else if encs.any (fun e => decide (e.id = r)) then
      feederLoop encs rest n (assignEnclosureL acc r)
    else
      feederLoop encs rest n acc

/-- The veterinarian sub-flow of hiring: ids until `0`; an existing enclosure
is assigned unless its resident count would push the running total over the
20-animal limit (the running total counts the matched enclosure even for a
duplicate id, as in the source). -/
def vetLoop (encs : List Enclosure) : List Int → Int → List Int → List Int
  | [], _, acc => acc
  | r :: rest, total, acc =>
    if r = 0 then acc
    else
      match encs.find? (fun e => decide (e.id = r)) with
      | none => vetLoop encs rest total acc
      | some e =>
        if total + (e.animals.length : Int) > 20 then vetLoop encs rest total acc
        else vetLoop encs rest (total + (e.animals.length : Int)) (assignEnclosureL acc r)

/-- `manageWorkers`, choice 1 (hire): the menu offers veterinarian, cleaner
and feeder; salary from the fixed table; the role-specific assignment
sub-flow fills the initial enclosure set (skipped when there is no
enclosure); `daysAssigned` starts at 0. -/
def hireWorker (z : Zoo) (wname : String) (pos : WorkerType) (reqs : List Int) : Zoo :=
  if pos = WorkerType.DIRECTOR then z
  else
    let assigned : List Int :=
      if z.enclosures.isEmpty then []
      else
        match pos with
        | WorkerType.CLEANER =>
          match reqs.head? with
          | none => []
          | some r => hireAssignCleaner z.enclosures r
        | WorkerType.FEEDER => feederLoop z.enclosures reqs 2 []
        | WorkerType.VETERINARIAN => vetLoop z.enclosures reqs 0 []
        | _ => []
    { z with workers := z.workers ++
        [{ name := wname, type := pos, salary := getSalaryForType pos,
           assignedEnclosures := assigned, daysAssigned := 0, daysWorked := 0,
           maxAnimals := maxAnimalsFor pos }] }

/-- `manageWorkers`, choice 3 (fire): rejected when only one worker remains or
when the target is the director; otherwise erase the worker. -/
def fireWorker (z : Zoo) (idx : Nat) : Zoo :=
  if z.workers.length ≤ 1 then z
  else
    match z.workers.get? idx with
    | none => z
    | some w =>
      if w.type = WorkerType.DIRECTOR then z
      else { z with workers := z.workers.eraseIdx idx }

/-- `manageWorkers`, choice 4 (assign): guard chain of the source — director
excluded, enclosure id must exist, duplicate assignment rejected, cleaner
capped at 1 and feeder at 2 assignments; the veterinarian animal-total check
only prints a warning in the source (its `continue` re-enters the enclosure
loop) and never rejects; duration from `getValidInput(1,365)` is then stored
with the new assignment. -/
def assignWorker (z : Zoo) (widx : Nat) (encId : Int) (dur : Int) : Zoo :=
  if z.workers.isEmpty ∨ z.enclosures.isEmpty then z
  else
    match z.workers.get? widx with
    | none => z
    | some w =>
      if w.type = WorkerType.DIRECTOR then z
      else if encId = 0 then z
      else if ¬ z.enclosures.any (fun e => decide (e.id = encId)) then z
      else if encId ∈ w.assignedEnclosures then z
      else if (match w.type with
               | WorkerType.CLEANER => decide (1 ≤ w.assignedEnclosures.length)
               | WorkerType.FEEDER => decide (2 ≤ w.assignedEnclosures.length)
               | _ => false) then z
      else if 1 ≤ dur ∧ dur ≤ 365 then
        let w2 := { w with assignedEnclosures := assignEnclosureL w.assignedEnclosures encId,
                           daysAssigned := dur }
        { z with workers := z.workers.set widx w2 }
      else z

/-- `managePurchases`, choice 1 (buy food): `$2` a unit, declined without
mutation on insufficient funds. -/
def buyFood (z : Zoo) (amount : Int) : Zoo :=
  if 0 ≤ amount ∧ amount ≤ 10000 then
    if ((amount * 2 : Int) : ℚ) ≤ z.money then
      { z with food := z.food + amount, money := z.money - ((amount * 2 : Int) : ℚ) }
    else z
  else z

/-- `managePurchases`, choice 2 (advertise): `popularity += (spend/200)*5`
(integer division), declined without mutation on insufficient funds. -/
def advertise (z : Zoo) (amount : Int) : Zoo :=
  if 0 ≤ amount ∧ amount ≤ 10000 then
    if (amount : ℚ) ≤ z.money then
      { z with popularity := z.popularity + ((Int.tdiv amount 200 * 5 : Int) : ℚ),
               money := z.money - (amount : ℚ) }
    else z
  else z

/-- `managePurchases`, choice 3 (borrow): amount `1..1000000`, term `1..20`
days, default daily rate `0.005`. -/
def borrow (z : Zoo) (amount : Int) (d : Int) : Zoo :=
  if 1 ≤ amount ∧ amount ≤ 1000000 ∧ 1 ≤ d ∧ d ≤ 20 then
    { z with loans := z.loans ++ [mkLoan (amount : ℚ) d (1 / 200)],
             money := z.money + (amount : ℚ) }
  else z

/-- `manageAnimals`, choice 5 (paid market refresh): `$50` fee, declined
without mutation on insufficient funds. -/
def marketRefreshPaid (z : Zoo) (g : Nat → Nat) (σ : List Nat) : Zoo :=
  if (50 : ℚ) ≤ z.money then
    refreshMarket g σ { z with money := z.money - 50 }
  else z

/-- Step 2 of `Zoo::nextDay` applied to one animal: increment
days-since-purchase and age. -/
def ageAnimal (a : Animal) : Animal :=
  { a with daysSincePurchase := a.daysSincePurchase + 1, ageDays := a.ageDays + 1 }

/-- Step 2 of `Zoo::nextDay` (ageing / old-age mortality): iterate the
registry; each animal is aged; when the incremented age exceeds 30, a roll
`random(0,99)` is drawn (short-circuit: no roll otherwise) and the animal
dies when the roll is below its age — removed from its enclosure, dropped
from the registry, total counter decremented.  Returns
`(registry, enclosures, totalAnimals, rand-counter)`. -/
def agePhase (g : Nat → Nat) :
    List Animal → List Enclosure → Int → Nat →
      List Animal × List Enclosure × Int × Nat
  | [], encs, tot, k => ([], encs, tot, k)
  | a :: rest, encs, tot, k =>
    let a2 := ageAnimal a
    if a2.ageDays > 30 then
      let R := randomInt g 0 99 k
      if R.1 < a2.ageDays then
        agePhase g rest (removeAnimalFromEnclosures encs a2.enclosureId a2.uniqueId)
          (tot - 1) R.2
      else
        let P := agePhase g rest encs tot R.2
        (a2 :: P.1, P.2)
    else
      let P := agePhase g rest encs tot k
      (a2 :: P.1, P.2)

/-- Step 3 of `Zoo::nextDay` applied to one worker: increment days worked,
decrement the assignment counter if positive, and clear all assignments when
the counter equals 0 afterwards. -/
def workerDayUpdate (w : Worker) : Worker :=
  let w1 := { w with daysWorked := w.daysWorked + 1 }
  let w2 := if w1.daysAssigned > 0 then { w1 with daysAssigned := w1.daysAssigned - 1 } else w1
  if w2.daysAssigned = 0 then { w2 with assignedEnclosures := [] } else w2

/-- Step 3 of `Zoo::nextDay` over the whole staff. -/
def workerPhase (ws : List Worker) : List Worker := ws.map workerDayUpdate

/-- Step 4 of `Zoo::nextDay` (sickness): each animal that is not already sick
draws `random(0,99)` (short-circuit: a sick animal draws nothing) and becomes
sick on a roll below 10. -/
def sickPhase (g : Nat → Nat) : List Animal → Nat → List Animal × Nat
  | [], k => ([], k)
  | a :: rest, k =>
    if a.isSick then
      let P := sickPhase g rest k
      (a :: P.1, P.2)
    else
      let R := randomInt g 0 99 k
      if R.1 < 10 then
        let P := sickPhase g rest R.2
        ({ a with isSick := true } :: P.1, P.2)
      else
        let P := sickPhase g rest R.2
        (a :: P.1, P.2)

/-- Step 5 of `Zoo::nextDay`, inner loop: one veterinarian treats sick
animals in registry order, bounded by its `maxAnimals` capacity, restricted
to its assigned enclosures; each healed animal's stored enclosure copy is
resynchronised. -/
def treatAnimals (w : Worker) :
    List Animal → Int → List Enclosure → List Animal × List Enclosure
  | [], _, encs => ([], encs)
  | a :: rest, treated, encs =>
    if a.isSick ∧ treated < w.maxAnimals ∧ a.enclosureId ∈ w.assignedEnclosures then
      let a2 := { a with isSick := false }
      let P := treatAnimals w rest (treated + 1) (updateAnimalInEnclosures encs a2)
      (a2 :: P.1, P.2)
    else
      let P := treatAnimals w rest treated encs
      (a :: P.1, P.2)

/-- Step 5 of `Zoo::nextDay`: every veterinarian with a positive remaining
assignment duration treats, starting from a fresh `treated` counter. -/
def vetPhase : List Worker → List Animal → List Enclosure → List Animal × List Enclosure
  | [], as, encs => (as, encs)
  | w :: ws, as, encs =>
    if w.type = WorkerType.VETERINARIAN ∧ w.daysAssigned > 0 then
      let P := treatAnimals w as 0 encs
      vetPhase ws P.1 P.2
    else
      vetPhase ws as encs

/-- Step 6 of `Zoo::nextDay`: total food demand, one unit per herbivore and
two per carnivore. -/
def foodDemand (as : List Animal) : Int :=
  (as.map (fun a => if a.type = AnimalType.HERBIVORE then (1 : Int) else 2)).sum

/-- The starvation loop of step 6: every animal draws `random(0,99)` and dies
on a roll below 30 — removed from its enclosure, dropped from the registry,
total counter decremented. -/
def starveLoop (g : Nat → Nat) :
    List Animal → List Enclosure → Int → Nat →
      List Animal × List Enclosure × Int × Nat
  | [], encs, tot, k => ([], encs, tot, k)
  | a :: rest, encs, tot, k =>
    let R := randomInt g 0 99 k
    if R.1 < 30 then
      starveLoop g rest (removeAnimalFromEnclosures encs a.enclosureId a.uniqueId)
        (tot - 1) R.2
    else
      let P := starveLoop g rest encs tot R.2
      (a :: P.1, P.2)

/-- Step 6 of `Zoo::nextDay` (feeding): when the stock covers the demand it
is reduced by exactly the demand; otherwise the stock is untouched and the
starvation loop runs.  Returns
`(registry, enclosures, totalAnimals, food, rand-counter)`. -/
def feedPhase (g : Nat → Nat) (as : List Animal) (encs : List Enclosure)
    (tot : Int) (food : Int) (k : Nat) :
    List Animal × List Enclosure × Int × Int × Nat :=
  if food ≥ foodDemand as then (as, encs, tot, food - foodDemand as, k)
  else
    let P := starveLoop g as encs tot k
    (P.1, P.2.1, P.2.2.1, food, P.2.2.2)

/-- Steps 2 of `Zoo::nextDay` applied to the state components (the ageing
loop starts after the market refresh consumed the `rand()` indices 0..9). -/
def dayAge (g : Nat → Nat) (z : Zoo) : List Animal × List Enclosure × Int × Nat :=
  agePhase g z.animals z.enclosures z.totalAnimals 10

/-- Step 4 of `Zoo::nextDay` applied after the ageing step. -/
def daySick (g : Nat → Nat) (z : Zoo) : List Animal × Nat :=
  sickPhase g (dayAge g z).1 (dayAge g z).2.2.2

/-- Step 5 of `Zoo::nextDay` applied after the sickness step (the worker
update of step 3 has already decremented the assignment counters). -/
def dayVet (g : Nat → Nat) (z : Zoo) : List Animal × List Enclosure :=
  vetPhase (workerPhase z.workers) (daySick g z).1 (dayAge g z).2.1

/-- Step 6 of `Zoo::nextDay` applied after the treatment step.  Components:
`(registry, enclosures, totalAnimals, food, rand-counter)`. -/
def dayFeed (g : Nat → Nat) (z : Zoo) : List Animal × List Enclosure × Int × Int × Nat :=
  feedPhase g (dayVet g z).1 (dayVet g z).2 (dayAge g z).2.2.1 z.food (daySick g z).2

/-- Step 12 of `Zoo::nextDay`, main loop: each loan with positive remaining
days is debited and decremented. -/
def loanStep : ℚ → List Loan → ℚ × List Loan
  | m, [] => (m, [])
  | m, l :: rest =>
    if l.daysLeft > 0 then
      let P := loanStep (m - l.dailyRepayment) rest
      (P.1, { l with daysLeft := l.daysLeft - 1 } :: P.2)
    else
      let P := loanStep m rest
      (P.1, l :: P.2)

/-- Step 12 of `Zoo::nextDay`: the repayment loop followed by the purge of
every loan with `daysLeft ≤ 0`. -/
def loanPhase (m : ℚ) (loans : List Loan) : ℚ × List Loan :=
  let P := loanStep m loans
  (P.1, P.2.filter (fun l => decide (0 < l.daysLeft)))

/-- C++ `static_cast<int>` on the popularity `double` (truncation toward
zero), on the exact rational model. -/
def toIntTrunc (q : ℚ) : Int := Int.tdiv q.num (q.den : Int)

/-- Sum of the daily salaries (`money -= worker.getSalary()` over the staff). -/
def salarySum (ws : List Worker) : ℚ := (((ws.map (fun w => w.salary)).sum : Int) : ℚ)

/-- Sum of the daily upkeep costs (`money -= enc.getDailyCost()`). -/
def upkeepSum (encs : List Enclosure) : ℚ :=
  (((encs.map (fun e => e.dailyCost)).sum : Int) : ℚ)

/-- `Zoo::nextDay`: the fixed daily pipeline.  `g` is the `rand()` oracle for
this call (indices 0..9 are consumed by the market regeneration) and `σ` the
shuffle of this call's market refresh. -/
def nextDay (g : Nat → Nat) (σ : List Nat) (z : Zoo) : Zoo :=
  let zr := refreshMarket g σ z
  let ws := workerPhase z.workers
  let F := dayFeed g z
  let D := randomInt g (-10) 10 F.2.2.2.2
  let pop1 := z.popularity * (1 + (D.1 : ℚ) / 100)
  let pop2 := pop1 - ((F.1.filter (fun a => a.isSick)).length : ℚ)
  let pop3 := if pop2 < 0 then 0 else pop2
  let vis : Int := toIntTrunc pop3
  let R := randomInt g 0 99 D.2
  let SV : String × Int × ℚ :=
    if R.1 < 20 then ("None", 0, pop3)
    else if R.1 < 30 then
      let c := (randomInt g 1 2 R.2).1
      ("Celebrity", c, pop3 + ((c * 10 : Int) : ℚ))
    else if R.1 < 50 then
      let c := (randomInt g 1 3 R.2).1
      ("Photographer", c, pop3 + ((c * 5 : Int) : ℚ))
    else ("None", 0, pop3)
  let L := loanPhase
    (z.money + ((vis : ℚ) * (F.2.2.1 : ℚ)) - salarySum ws - upkeepSum F.2.1)
    z.loans
  { z with
      day := z.day + 1, animalsBoughtToday := 0,
      marketAnimals := zr.marketAnimals, nextAnimalId := zr.nextAnimalId,
      specialVisitorType := SV.1, specialVisitorCount := SV.2.1,
      animals := F.1, enclosures := F.2.1, workers := ws,
      totalAnimals := F.2.2.1, food := F.2.2.2.1,
      popularity := SV.2.2, visitors := vis,
      money := L.1, loans := L.2 }

/-- The core operations of the facade, as one step type (`advance` carries
this call's `rand()` oracle and market shuffle). -/
inductive Op where
  | purchaseOp (idx : Nat) (encId : Int)
  | sellOp (idx : Nat)
  | renameOp (idx : Nat) (newName : String)
  | breedOp (i j : Nat) (r : Nat)
  | buildOp (cap : Int) (t : AnimalType) (c : Climate)
  | hireOp (wname : String) (pos : WorkerType) (reqs : List Int)
  | fireOp (idx : Nat)
  | assignOp (widx : Nat) (encId : Int) (dur : Int)
  | buyFoodOp (amount : Int)
  | advertiseOp (amount : Int)
  | borrowOp (amount : Int) (d : Int)
  | marketOp (g : Nat → Nat) (σ : List Nat)
  | advanceOp (g : Nat → Nat) (σ : List Nat)

/-- The state transition of each core operation. -/
def applyOp (op : Op) (z : Zoo) : Zoo :=
  match op with
  | Op.purchaseOp idx encId => purchase z idx encId
  | Op.sellOp idx => sell z idx
  | Op.renameOp idx newName => renameAnimal z idx newName
  | Op.breedOp i j r => applyBreed z i j r
  | Op.buildOp cap t c => buildEnclosure z cap t c
  | Op.hireOp wname pos reqs => hireWorker z wname pos reqs
  | Op.fireOp idx => fireWorker z idx
  | Op.assignOp widx encId dur => assignWorker z widx encId dur
  | Op.buyFoodOp amount => buyFood z amount
  | Op.advertiseOp amount => advertise z amount
  | Op.borrowOp amount d => borrow z amount d
  | Op.marketOp g σ => marketRefreshPaid z g σ
  | Op.advanceOp g σ => nextDay g σ z

/-- The states reachable from a freshly constructed zoo through the core
operations. -/
inductive Reachable : Zoo → Prop where
  | init : ∀ name g σ, Reachable (mkZoo name g σ)
  | step : ∀ z op, Reachable z → Reachable (applyOp op z)

/-- The claimed placement invariant: within every enclosure every resident
matches the enclosure's diet class and climate, and the resident count does
not exceed the capacity. -/
def encInv (encs : List Enclosure) : Prop :=
  ∀ e ∈ encs, (e.animals.length : Int) ≤ e.capacity ∧
    ∀ a ∈ e.animals, a.type = e.animalType ∧ a.preferredClimate = e.climate

/-- Auxiliary invariant: every registry animal matches any enclosure its
enclosure-id points at. -/
def regConsist (as : List Animal) (encs : List Enclosure) : Prop :=
  ∀ a ∈ as, ∀ e ∈ encs, e.id = a.enclosureId →
    a.type = e.animalType ∧ a.preferredClimate = e.climate

/-- Auxiliary invariant: every registry animal's enclosure-id points at an
existing enclosure. -/
def regPlaced (as : List Animal) (encs : List Enclosure) : Prop :=
  ∀ a ∈ as, ∃ e ∈ encs, e.id = a.enclosureId

/-- Strictly increasing list of integers (enclosure ids are created by a
monotone counter). -/
def idsChainB : List Int → Bool
  | [] => true
  | [_] => true
  | x :: y :: rest => decide (x < y) && idsChainB (y :: rest)

/-- Auxiliary invariant: the enclosure ids are strictly increasing along the
list. -/
def idsInc (encs : List Enclosure) : Prop :=
  idsChainB (encs.map (fun e => e.id)) = true

/-- Auxiliary invariant: every enclosure id is at least 1. -/
def idsPos (encs : List Enclosure) : Prop := ∀ e ∈ encs, 1 ≤ e.id

/-- The inductive strengthening of the placement invariant. -/
def zooInv (z : Zoo) : Prop :=
  encInv z.enclosures ∧ regConsist z.animals z.enclosures ∧
    regPlaced z.animals z.enclosures ∧ idsInc z.enclosures ∧ idsPos z.enclosures

/-- Two enclosures agreeing on identity, capacity, diet class and climate
(the fields the placement invariant compares against). -/
def encScalarEq (e' e : Enclosure) : Prop :=
  e'.id = e.id ∧ e'.capacity = e.capacity ∧ e'.animalType = e.animalType ∧
    e'.climate = e.climate

/-- An enclosure after removals: same scalar fields, residents a sublist of
the previous residents. -/
def encErode (e' e : Enclosure) : Prop :=
  encScalarEq e' e ∧ e'.animals.Sublist e.animals

/-- An enclosure after an `updateAnimal` resynchronisation with `x`: same
scalar fields and resident count, every resident either already present or
equal to `x` (in the enclosure `x` points at). -/
def encUpd (x : Animal) (e' e : Enclosure) : Prop :=
  encScalarEq e' e ∧ e'.animals.length = e.animals.length ∧
    ∀ y ∈ e'.animals, y ∈ e.animals ∨ (y = x ∧ e.id = x.enclosureId)

/-- A fixed all-zero `rand()` oracle, used to instantiate theorems on
concrete runs. -/
def gZero : Nat → Nat := fun _ => 0

/-- The identity shuffle of the ten market indices. -/
def sigmaId : List Nat := List.range 10

/-- The largest enclosure identity, `0` when there is no enclosure (so that
"highest identity plus one" uniformly describes the id of a newly built
enclosure). -/
def maxEncId (encs : List Enclosure) : Int :=
  (encs.map (fun e => e.id)).foldr max 0

/-- The enclosure built by `manageEnclosures`, described as the claim does:
identity = highest existing identity plus one (`maxEncId` is 0 on an empty
list, so this is 1 when no enclosure exists), daily upkeep `2 * capacity`,
empty resident list. -/
def builtEnclosure (encs : List Enclosure) (cap : Int) (t : AnimalType) (c : Climate) :
    Enclosure :=
  { id := maxEncId encs + 1, capacity := cap, animalType := t, climate := c,
    dailyCost := cap * 2, animals := [] }

/-- `n` consecutive day-advance loan steps (step 12 of `Zoo::nextDay`)
applied to a cash balance and a loan list. -/
def loanIter : Nat → ℚ × List Loan → ℚ × List Loan
  | 0, s => s
  | n + 1, s => loanPhase (loanIter n s).1 (loanIter n s).2

/-- A concrete male animal placed in enclosure 1, used to instantiate
theorems. -/
def sampleMale : Animal :=
  { species := "Олень", displayName := "Олень", ageDays := 10, weight := 1,
    preferredClimate := Climate.TEMPERATE, price := 100,
    type := AnimalType.HERBIVORE, enclosureId := 1, daysSincePurchase := 0,
    gender := Gender.MALE, isBornInZoo := false, parents := ("None", "None"),
    isSick := false, uniqueId := 1 }

/-- A concrete female animal placed in enclosure 1, used to instantiate
theorems. -/
def sampleFemale : Animal :=
  { sampleMale with displayName := "Олениха", weight := 3, price := 101,
                    gender := Gender.FEMALE, uniqueId := 2 }

/-- A concrete animal past the old-age threshold, used to instantiate the
mortality theorems. -/
def sampleOldAnimal : Animal :=
  { sampleMale with ageDays := 40, uniqueId := 3 }

/-- A concrete zoo whose single enclosure (capacity 2) is full with two male
animals: an ineligible pair in a full enclosure. -/
def zooTwoMales : Zoo :=
  { name := "Z", money := 1000, food := 10, popularity := 50,
    animals := [sampleMale, { sampleMale with uniqueId := 2 }],
    enclosures := [{ id := 1, capacity := 2, animalType := AnimalType.HERBIVORE,
                     climate := Climate.TEMPERATE, dailyCost := 4,
                     animals := [sampleMale, { sampleMale with uniqueId := 2 }] }],
    workers := initialWorkers, loans := [], day := 1, visitors := 0,
    totalAnimals := 2, specialVisitorType := "None", specialVisitorCount := 0,
    marketAnimals := [], animalsBoughtToday := 0, nextAnimalId := 3 }

theorem forall2_mem_left {α β : Type} {R : α → β → Prop} {l₁ : List α} {l₂ : List β}
    (h : List.Forall₂ R l₁ l₂) {a : α} (ha : a ∈ l₁) : ∃ b ∈ l₂, R a b := by
  induction h with
  | nil => cases ha
  | cons hab htail ih =>
    rcases List.mem_cons.mp ha with rfl | ha2
    · exact ⟨_, List.mem_cons_self _ _, hab⟩
    · obtain ⟨b, hb, hrb⟩ := ih ha2
      exact ⟨b, List.mem_cons_of_mem _ hb, hrb⟩

theorem forall2_mem_right {α β : Type} {R : α → β → Prop} {l₁ : List α} {l₂ : List β}
    (h : List.Forall₂ R l₁ l₂) {b : β} (hb : b ∈ l₂) : ∃ a ∈ l₁, R a b := by
  induction h with
  | nil => cases hb
  | cons hab htail ih =>
    rcases List.mem_cons.mp hb with rfl | hb2
    · exact ⟨_, List.mem_cons_self _ _, hab⟩
    · obtain ⟨a, ha, hra⟩ := ih hb2
      exact ⟨a, List.mem_cons_of_mem _ ha, hra⟩

theorem forall2_trans {α : Type} {R : α → α → Prop}
    (ht : ∀ a b c, R a b → R b c → R a c) {l₁ l₂ l₃ : List α}
    (h12 : List.Forall₂ R l₁ l₂) (h23 : List.Forall₂ R l₂ l₃) :
    List.Forall₂ R l₁ l₃ := by
  induction h12 generalizing l₃ with
  | nil => cases h23; exact List.Forall₂.nil
  | cons hab h ih =>
    cases h23 with
    | cons hbc h2 => exact List.Forall₂.cons (ht _ _ _ hab hbc) (ih h2)

theorem forall2_refl_of {α : Type} {R : α → α → Prop} (hr : ∀ a, R a a)
    (l : List α) : List.Forall₂ R l l :=
  List.forall₂_same.mpr (fun a _ => hr a)

theorem encScalarEq_refl (e : Enclosure) : encScalarEq e e := ⟨rfl, rfl, rfl, rfl⟩

theorem encScalarEq_trans {a b c : Enclosure} (h1 : encScalarEq a b)
    (h2 : encScalarEq b c) : encScalarEq a c := by
  obtain ⟨x1, x2, x3, x4⟩ := h1
  obtain ⟨y1, y2, y3, y4⟩ := h2
  exact ⟨x1.trans y1, x2.trans y2, x3.trans y3, x4.trans y4⟩

theorem encErode_refl (e : Enclosure) : encErode e e :=
  ⟨encScalarEq_refl e, List.Sublist.refl _⟩

theorem encErode_trans {a b c : Enclosure} (h1 : encErode a b) (h2 : encErode b c) :
    encErode a c :=
  ⟨encScalarEq_trans h1.1 h2.1, h1.2.trans h2.2⟩

theorem encUpd_scalar {x : Animal} {e' e : Enclosure} (h : encUpd x e' e) :
    encScalarEq e' e := h.1

theorem ids_map_eq_of_forall2 {encs' encs : List Enclosure}
    (h : List.Forall₂ encScalarEq encs' encs) :
    encs'.map (fun e => e.id) = encs.map (fun e => e.id) := by
  induction h with
  | nil => rfl
  | cons hab htail ih => simpa [hab.1] using ih

theorem encInv_of_forall2_encErode {encs' encs : List Enclosure}
    (h : List.Forall₂ encErode encs' encs) (hI : encInv encs) : encInv encs' := by
  intro e' he'
  obtain ⟨e, he, ⟨⟨hid, hcap, hty, hcl⟩, hsub⟩⟩ := forall2_mem_left h he'
  obtain ⟨hlen, hmem⟩ := hI e he
  constructor
  · rw [hcap]
    exact le_trans (by exact_mod_cast hsub.length_le) hlen
  · intro a ha
    obtain ⟨h1, h2⟩ := hmem a (hsub.subset ha)
    exact ⟨by rw [hty, h1], by rw [hcl, h2]⟩

theorem regConsist_tail {a : Animal} {as : List Animal} {encs : List Enclosure}
    (h : regConsist (a :: as) encs) : regConsist as encs :=
  fun x hx => h x (List.mem_cons_of_mem _ hx)

theorem regPlaced_tail {a : Animal} {as : List Animal} {encs : List Enclosure}
    (h : regPlaced (a :: as) encs) : regPlaced as encs :=
  fun x hx => h x (List.mem_cons_of_mem _ hx)

theorem regConsist_of_forall2 {as : List Animal} {encs' encs : List Enclosure}
    (h : List.Forall₂ encScalarEq encs' encs) (hC : regConsist as encs) :
    regConsist as encs' := by
  intro a ha e' he' hid
  obtain ⟨e, he, ⟨h1, h2, h3, h4⟩⟩ := forall2_mem_left h he'
  obtain ⟨t1, t2⟩ := hC a ha e he (by rw [← h1, hid])
  exact ⟨by rw [← h3] at t1; exact t1, by rw [← h4] at t2; exact t2⟩

theorem regPlaced_of_forall2 {as : List Animal} {encs' encs : List Enclosure}
    (h : List.Forall₂ encScalarEq encs' encs) (hP : regPlaced as encs) :
    regPlaced as encs' := by
  intro a ha
  obtain ⟨e, he, hid⟩ := hP a ha
  obtain ⟨e', he', hsc⟩ := forall2_mem_right h he
  exact ⟨e', he', by rw [hsc.1, hid]⟩

theorem idsInc_of_forall2 {encs' encs : List Enclosure}
    (h : List.Forall₂ encScalarEq encs' encs) (hi : idsInc encs) : idsInc encs' := by
  unfold idsInc at *
  rw [ids_map_eq_of_forall2 h]
  exact hi

theorem idsPos_of_forall2 {encs' encs : List Enclosure}
    (h : List.Forall₂ encScalarEq encs' encs) (hp : idsPos encs) : idsPos encs' := by
  intro e' he'
  obtain ⟨e, he, hsc⟩ := forall2_mem_left h he'
  rw [hsc.1]
  exact hp e he

theorem removeAnimalFromEnclosures_erode (encs : List Enclosure) (eid uid : Int) :
    List.Forall₂ encErode (removeAnimalFromEnclosures encs eid uid) encs := by
  induction encs with
  | nil => exact List.Forall₂.nil
  | cons e rest ih =>
    unfold removeAnimalFromEnclosures
    by_cases h : e.id = eid
    · rw [if_pos h]
      exact List.Forall₂.cons ⟨encScalarEq_refl _, List.filter_sublist _⟩
        (forall2_refl_of encErode_refl rest)
    · rw [if_neg h]
      exact List.Forall₂.cons (encErode_refl e) ih

theorem updateAnimalList_length (l : List Animal) (a : Animal) :
    (updateAnimalList l a).length = l.length := by
  induction l with
  | nil => rfl
  | cons b rest ih =>
    unfold updateAnimalList
    by_cases h : b.uniqueId = a.uniqueId
    · rw [if_pos h]
      simp
    · rw [if_neg h]
      simpa using ih

theorem updateAnimalList_mem (l : List Animal) (a : Animal) :
    ∀ y ∈ updateAnimalList l a, y ∈ l ∨ y = a := by
  induction l with
  | nil => intro y hy; cases hy
  | cons b rest ih =>
    intro y hy
    unfold updateAnimalList at hy
    by_cases h : b.uniqueId = a.uniqueId
    · rw [if_pos h] at hy
      rcases List.mem_cons.mp hy with rfl | hy2
      · exact Or.inr rfl
      · exact Or.inl (List.mem_cons_of_mem _ hy2)
    · rw [if_neg h] at hy
      rcases List.mem_cons.mp hy with rfl | hy2
      · exact Or.inl (List.mem_cons_self _ _)
      · rcases ih y hy2 with h2 | h2
        · exact Or.inl (List.mem_cons_of_mem _ h2)
        · exact Or.inr h2

theorem encUpd_refl (x : Animal) (e : Enclosure) : encUpd x e e :=
  ⟨encScalarEq_refl e, rfl, fun y hy => Or.inl hy⟩

theorem updateAnimalInEnclosures_upd (encs : List Enclosure) (x : Animal) :
    List.Forall₂ (encUpd x) (updateAnimalInEnclosures encs x) encs := by
  induction encs with
  | nil => exact List.Forall₂.nil
  | cons e rest ih =>
    unfold updateAnimalInEnclosures
    by_cases h : e.id = x.enclosureId
    · rw [if_pos h]
      refine List.Forall₂.cons ⟨encScalarEq_refl _, updateAnimalList_length _ _, ?_⟩
        (forall2_refl_of (encUpd_refl x) rest)
      intro y hy
      rcases updateAnimalList_mem _ _ y hy with h2 | h2
      · exact Or.inl h2
      · exact Or.inr ⟨h2, h⟩
    · rw [if_neg h]
      exact List.Forall₂.cons (encUpd_refl x e) ih

theorem encInv_of_forall2_encUpd {x : Animal} {encs' encs : List Enclosure}
    (h : List.Forall₂ (encUpd x) encs' encs) (hI : encInv encs)
    (hx : ∀ e ∈ encs, e.id = x.enclosureId →
      x.type = e.animalType ∧ x.preferredClimate = e.climate) :
    encInv encs' := by
  intro e' he'
  obtain ⟨e, he, ⟨⟨hid, hcap, hty, hcl⟩, hlen, hmem⟩⟩ := forall2_mem_left h he'
  obtain ⟨hl, hm⟩ := hI e he
  constructor
  · rw [hcap, hlen]
    exact hl
  · intro a ha
    rcases hmem a ha with h2 | ⟨rfl, h3⟩
    · obtain ⟨t1, t2⟩ := hm a h2
      exact ⟨by rw [hty, t1], by rw [hcl, t2]⟩
    · obtain ⟨t1, t2⟩ := hx e he h3
      exact ⟨by rw [hty, t1], by rw [hcl, t2]⟩

theorem ageAnimal_ageDays (a : Animal) : (ageAnimal a).ageDays = a.ageDays + 1 := rfl

theorem ageAnimal_daysSincePurchase (a : Animal) :
    (ageAnimal a).daysSincePurchase = a.daysSincePurchase + 1 := rfl

theorem ageAnimal_fields (a : Animal) :
    (ageAnimal a).type = a.type ∧ (ageAnimal a).preferredClimate = a.preferredClimate ∧
      (ageAnimal a).enclosureId = a.enclosureId ∧ (ageAnimal a).uniqueId = a.uniqueId :=
  ⟨rfl, rfl, rfl, rfl⟩

theorem agePhase_nil (g : Nat → Nat) (encs : List Enclosure) (tot : Int) (k : Nat) :
    agePhase g [] encs tot k = ([], encs, tot, k) := rfl

theorem agePhase_cons_die (g : Nat → Nat) (a : Animal) (rest : List Animal)
    (encs : List Enclosure) (tot : Int) (k : Nat)
    (hage : (ageAnimal a).ageDays > 30)
    (hroll : (randomInt g 0 99 k).1 < (ageAnimal a).ageDays) :
    agePhase g (a :: rest) encs tot k =
      agePhase g rest (removeAnimalFromEnclosures encs a.enclosureId a.uniqueId)
        (tot - 1) (randomInt g 0 99 k).2 := by
  simp only [agePhase]
  rw [if_pos hage, if_pos hroll]
  rfl

theorem agePhase_cons_live_old (g : Nat → Nat) (a : Animal) (rest : List Animal)
    (encs : List Enclosure) (tot : Int) (k : Nat)
    (hage : (ageAnimal a).ageDays > 30)
    (hroll : ¬ (randomInt g 0 99 k).1 < (ageAnimal a).ageDays) :
    agePhase g (a :: rest) encs tot k =
      (ageAnimal a :: (agePhase g rest encs tot (randomInt g 0 99 k).2).1,
        (agePhase g rest encs tot (randomInt g 0 99 k).2).2) := by
  simp only [agePhase]
  rw [if_pos hage, if_neg hroll]

theorem agePhase_cons_young (g : Nat → Nat) (a : Animal) (rest : List Animal)
    (encs : List Enclosure) (tot : Int) (k : Nat)
    (hage : ¬ (ageAnimal a).ageDays > 30) :
    agePhase g (a :: rest) encs tot k =
      (ageAnimal a :: (agePhase g rest encs tot k).1, (agePhase g rest encs tot k).2) := by
  simp only [agePhase]
  rw [if_neg hage]

theorem agePhase_preserves (g : Nat → Nat) :
    ∀ (as : List Animal) (encs : List Enclosure) (tot : Int) (k : Nat),
      encInv encs → regConsist as encs → regPlaced as encs →
      List.Forall₂ encErode (agePhase g as encs tot k).2.1 encs ∧
      encInv (agePhase g as encs tot k).2.1 ∧
      regConsist (agePhase g as encs tot k).1 (agePhase g as encs tot k).2.1 ∧
      regPlaced (agePhase g as encs tot k).1 (agePhase g as encs tot k).2.1 := by
  intro as
  induction as with
  | nil =>
    intro encs tot k h1 h2 h3
    rw [agePhase_nil]
    exact ⟨forall2_refl_of encErode_refl encs, h1,
      fun a ha => absurd ha (List.not_mem_nil a),
      fun a ha => absurd ha (List.not_mem_nil a)⟩
  | cons a rest ih =>
    intro encs tot k h1 h2 h3
    by_cases hage : (ageAnimal a).ageDays > 30
    · by_cases hroll : (randomInt g 0 99 k).1 < (ageAnimal a).ageDays
      · rw [agePhase_cons_die g a rest encs tot k hage hroll]
        have hrem := removeAnimalFromEnclosures_erode encs a.enclosureId a.uniqueId
        have hremS := hrem.imp (fun _ _ h => h.1)
        obtain ⟨c1, c2, c3, c4⟩ :=
          ih (removeAnimalFromEnclosures encs a.enclosureId a.uniqueId)
            (tot - 1) (randomInt g 0 99 k).2
            (encInv_of_forall2_encErode hrem h1)
            (regConsist_of_forall2 hremS (regConsist_tail h2))
            (regPlaced_of_forall2 hremS (regPlaced_tail h3))
        exact ⟨forall2_trans (R := encErode) (fun _ _ _ p q => encErode_trans p q) c1 hrem,
          c2, c3, c4⟩
      · rw [agePhase_cons_live_old g a rest encs tot k hage hroll]
        obtain ⟨c1, c2, c3, c4⟩ := ih encs tot (randomInt g 0 99 k).2 h1
          (regConsist_tail h2) (regPlaced_tail h3)
        have c1S := c1.imp (fun _ _ h => h.1)
        refine ⟨c1, c2, ?_, ?_⟩
        · intro x hx e' he' hid
          rcases List.mem_cons.mp hx with rfl | hx2
          · obtain ⟨e, he, hsc⟩ := forall2_mem_left c1S he'
            obtain ⟨t1, t2⟩ := h2 a (List.mem_cons_self _ _) e he
              (by rw [← hsc.1, hid]; rfl)
            exact ⟨by rw [hsc.2.2.1]; exact t1, by rw [hsc.2.2.2]; exact t2⟩
          · exact c3 x hx2 e' he' hid
        · intro x hx
          rcases List.mem_cons.mp hx with rfl | hx2
          · obtain ⟨e, he, hid⟩ := h3 a (List.mem_cons_self _ _)
            obtain ⟨e', he', hsc⟩ := forall2_mem_right c1S he
            exact ⟨e', he', by rw [hsc.1, hid]; rfl⟩
          · exact c4 x hx2
    · rw [agePhase_cons_young g a rest encs tot k hage]
      obtain ⟨c1, c2, c3, c4⟩ := ih encs tot k h1 (regConsist_tail h2) (regPlaced_tail h3)
      have c1S := c1.imp (fun _ _ h => h.1)
      refine ⟨c1, c2, ?_, ?_⟩
      · intro x hx e' he' hid
        rcases List.mem_cons.mp hx with rfl | hx2
        · obtain ⟨e, he, hsc⟩ := forall2_mem_left c1S he'
          obtain ⟨t1, t2⟩ := h2 a (List.mem_cons_self _ _) e he
            (by rw [← hsc.1, hid]; rfl)
          exact ⟨by rw [hsc.2.2.1]; exact t1, by rw [hsc.2.2.2]; exact t2⟩
        · exact c3 x hx2 e' he' hid
      · intro x hx
        rcases List.mem_cons.mp hx with rfl | hx2
        · obtain ⟨e, he, hid⟩ := h3 a (List.mem_cons_self _ _)
          obtain ⟨e', he', hsc⟩ := forall2_mem_right c1S he
          exact ⟨e', he', by rw [hsc.1, hid]; rfl⟩
        · exact c4 x hx2

theorem regConsist_cons_of {a : Animal} {as : List Animal} {encs' encs : List Enclosure}
    (hS : List.Forall₂ encScalarEq encs' encs)
    (ha : ∀ e ∈ encs, e.id = a.enclosureId →
      a.type = e.animalType ∧ a.preferredClimate = e.climate)
    (hrest : regConsist as encs') : regConsist (a :: as) encs' := by
  intro x hx e' he' hid
  rcases List.mem_cons.mp hx with rfl | hx2
  · obtain ⟨e, he, hsc⟩ := forall2_mem_left hS he'
    obtain ⟨t1, t2⟩ := ha e he (by rw [← hsc.1, hid])
    exact ⟨by rw [hsc.2.2.1]; exact t1, by rw [hsc.2.2.2]; exact t2⟩
  · exact hrest x hx2 e' he' hid

theorem regPlaced_cons_of {a : Animal} {as : List Animal} {encs' encs : List Enclosure}
    (hS : List.Forall₂ encScalarEq encs' encs)
    (ha : ∃ e ∈ encs, e.id = a.enclosureId)
    (hrest : regPlaced as encs') : regPlaced (a :: as) encs' := by
  intro x hx
  rcases List.mem_cons.mp hx with rfl | hx2
  · obtain ⟨e, he, hid⟩ := ha
    obtain ⟨e', he', hsc⟩ := forall2_mem_right hS he
    exact ⟨e', he', by rw [hsc.1, hid]⟩
  · exact hrest x hx2

theorem starveLoop_nil (g : Nat → Nat) (encs : List Enclosure) (tot : Int) (k : Nat) :
    starveLoop g [] encs tot k = ([], encs, tot, k) := rfl

theorem starveLoop_cons_die (g : Nat → Nat) (a : Animal) (rest : List Animal)
    (encs : List Enclosure) (tot : Int) (k : Nat)
    (hroll : (randomInt g 0 99 k).1 < 30) :
    starveLoop g (a :: rest) encs tot k =
      starveLoop g rest (removeAnimalFromEnclosures encs a.enclosureId a.uniqueId)
        (tot - 1) (randomInt g 0 99 k).2 := by
  simp only [starveLoop]
  rw [if_pos hroll]

theorem starveLoop_cons_live (g : Nat → Nat) (a : Animal) (rest : List Animal)
    (encs : List Enclosure) (tot : Int) (k : Nat)
    (hroll : ¬ (randomInt g 0 99 k).1 < 30) :
    starveLoop g (a :: rest) encs tot k =
      (a :: (starveLoop g rest encs tot (randomInt g 0 99 k).2).1,
        (starveLoop g rest encs tot (randomInt g 0 99 k).2).2) := by
  simp only [starveLoop]
  rw [if_neg hroll]

theorem starveLoop_preserves (g : Nat → Nat) :
    ∀ (as : List Animal) (encs : List Enclosure) (tot : Int) (k : Nat),
      encInv encs → regConsist as encs → regPlaced as encs →
      List.Forall₂ encErode (starveLoop g as encs tot k).2.1 encs ∧
      encInv (starveLoop g as encs tot k).2.1 ∧
      regConsist (starveLoop g as encs tot k).1 (starveLoop g as encs tot k).2.1 ∧
      regPlaced (starveLoop g as encs tot k).1 (starveLoop g as encs tot k).2.1 := by
  intro as
  induction as with
  | nil =>
    intro encs tot k h1 h2 h3
    rw [starveLoop_nil]
    exact ⟨forall2_refl_of encErode_refl encs, h1,
      fun a ha => absurd ha (List.not_mem_nil a),
      fun a ha => absurd ha (List.not_mem_nil a)⟩
  | cons a rest ih =>
    intro encs tot k h1 h2 h3
    by_cases hroll : (randomInt g 0 99 k).1 < 30
    · rw [starveLoop_cons_die g a rest encs tot k hroll]
      have hrem := removeAnimalFromEnclosures_erode encs a.enclosureId a.uniqueId
      have hremS := hrem.imp (fun _ _ h => h.1)
      obtain ⟨c1, c2, c3, c4⟩ :=
        ih (removeAnimalFromEnclosures encs a.enclosureId a.uniqueId)
          (tot - 1) (randomInt g 0 99 k).2
          (encInv_of_forall2_encErode hrem h1)
          (regConsist_of_forall2 hremS (regConsist_tail h2))
          (regPlaced_of_forall2 hremS (regPlaced_tail h3))
      exact ⟨forall2_trans (R := encErode) (fun _ _ _ p q => encErode_trans p q) c1 hrem,
        c2, c3, c4⟩
    · rw [starveLoop_cons_live g a rest encs tot k hroll]
      obtain ⟨c1, c2, c3, c4⟩ := ih encs tot (randomInt g 0 99 k).2 h1
        (regConsist_tail h2) (regPlaced_tail h3)
      have c1S := c1.imp (fun _ _ h => h.1)
      exact ⟨c1, c2,
        regConsist_cons_of c1S (h2 a (List.mem_cons_self _ _)) c3,
        regPlaced_cons_of c1S (h3 a (List.mem_cons_self _ _)) c4⟩

theorem sickPhase_nil (g : Nat → Nat) (k : Nat) : sickPhase g [] k = ([], k) := rfl

theorem sickPhase_cons_sick (g : Nat → Nat) (a : Animal) (rest : List Animal) (k : Nat)
    (h : a.isSick = true) :
    sickPhase g (a :: rest) k =
      (a :: (sickPhase g rest k).1, (sickPhase g rest k).2) := by
  simp only [sickPhase]
  rw [if_pos h]

theorem sickPhase_cons_becomes (g : Nat → Nat) (a : Animal) (rest : List Animal) (k : Nat)
    (h : ¬ a.isSick = true) (h2 : (randomInt g 0 99 k).1 < 10) :
    sickPhase g (a :: rest) k =
      ({ a with isSick := true } :: (sickPhase g rest (randomInt g 0 99 k).2).1,
        (sickPhase g rest (randomInt g 0 99 k).2).2) := by
  simp only [sickPhase]
  rw [if_neg h, if_pos h2]

theorem sickPhase_cons_stays (g : Nat → Nat) (a : Animal) (rest : List Animal) (k : Nat)
    (h : ¬ a.isSick = true) (h2 : ¬ (randomInt g 0 99 k).1 < 10) :
    sickPhase g (a :: rest) k =
      (a :: (sickPhase g rest (randomInt g 0 99 k).2).1,
        (sickPhase g rest (randomInt g 0 99 k).2).2) := by
  simp only [sickPhase]
  rw [if_neg h, if_neg h2]

theorem sickPhase_preserves (g : Nat → Nat) :
    ∀ (as : List Animal) (k : Nat) (encs : List Enclosure),
      regConsist as encs → regPlaced as encs →
      regConsist (sickPhase g as k).1 encs ∧ regPlaced (sickPhase g as k).1 encs := by
  intro as
  induction as with
  | nil =>
    intro k encs h2 h3
    rw [sickPhase_nil]
    exact ⟨fun a ha => absurd ha (List.not_mem_nil a),
      fun a ha => absurd ha (List.not_mem_nil a)⟩
  | cons a rest ih =>
    intro k encs h2 h3
    have hSrefl := forall2_refl_of encScalarEq_refl encs
    by_cases hs : a.isSick = true
    · rw [sickPhase_cons_sick g a rest k hs]
      obtain ⟨c3, c4⟩ := ih k encs (regConsist_tail h2) (regPlaced_tail h3)
      exact ⟨regConsist_cons_of hSrefl (h2 a (List.mem_cons_self _ _)) c3,
        regPlaced_cons_of hSrefl (h3 a (List.mem_cons_self _ _)) c4⟩
    · by_cases hr : (randomInt g 0 99 k).1 < 10
      · rw [sickPhase_cons_becomes g a rest k hs hr]
        obtain ⟨c3, c4⟩ := ih (randomInt g 0 99 k).2 encs
          (regConsist_tail h2) (regPlaced_tail h3)
        exact ⟨regConsist_cons_of hSrefl (h2 a (List.mem_cons_self _ _)) c3,
          regPlaced_cons_of hSrefl (h3 a (List.mem_cons_self _ _)) c4⟩
      · rw [sickPhase_cons_stays g a rest k hs hr]
        obtain ⟨c3, c4⟩ := ih (randomInt g 0 99 k).2 encs
          (regConsist_tail h2) (regPlaced_tail h3)
        exact ⟨regConsist_cons_of hSrefl (h2 a (List.mem_cons_self _ _)) c3,
          regPlaced_cons_of hSrefl (h3 a (List.mem_cons_self _ _)) c4⟩

theorem treatAnimals_nil (w : Worker) (treated : Int) (encs : List Enclosure) :
    treatAnimals w [] treated encs = ([], encs) := rfl

theorem treatAnimals_cons_heal (w : Worker) (a : Animal) (rest : List Animal)
    (treated : Int) (encs : List Enclosure)
    (hc : a.isSick = true ∧ treated < w.maxAnimals ∧ a.enclosureId ∈ w.assignedEnclosures) :
    treatAnimals w (a :: rest) treated encs =
      ({ a with isSick := false } ::
        (treatAnimals w rest (treated + 1)
          (updateAnimalInEnclosures encs { a with isSick := false })).1,
        (treatAnimals w rest (treated + 1)
          (updateAnimalInEnclosures encs { a with isSick := false })).2) := by
  simp only [treatAnimals]
  rw [if_pos hc]

theorem treatAnimals_cons_skip (w : Worker) (a : Animal) (rest : List Animal)
    (treated : Int) (encs : List Enclosure)
    (hc : ¬ (a.isSick = true ∧ treated < w.maxAnimals ∧
      a.enclosureId ∈ w.assignedEnclosures)) :
    treatAnimals w (a :: rest) treated encs =
      (a :: (treatAnimals w rest treated encs).1, (treatAnimals w rest treated encs).2) := by
  simp only [treatAnimals]
  rw [if_neg hc]

theorem treatAnimals_preserves (w : Worker) :
    ∀ (as : List Animal) (treated : Int) (encs : List Enclosure),
      encInv encs → regConsist as encs → regPlaced as encs →
      List.Forall₂ encScalarEq (treatAnimals w as treated encs).2 encs ∧
      encInv (treatAnimals w as treated encs).2 ∧
      regConsist (treatAnimals w as treated encs).1 (treatAnimals w as treated encs).2 ∧
      regPlaced (treatAnimals w as treated encs).1 (treatAnimals w as treated encs).2 := by
  intro as
  induction as with
  | nil =>
    intro treated encs h1 h2 h3
    rw [treatAnimals_nil]
    exact ⟨forall2_refl_of encScalarEq_refl encs, h1,
      fun a ha => absurd ha (List.not_mem_nil a),
      fun a ha => absurd ha (List.not_mem_nil a)⟩
  | cons a rest ih =>
    intro treated encs h1 h2 h3
    by_cases hc : a.isSick = true ∧ treated < w.maxAnimals ∧
        a.enclosureId ∈ w.assignedEnclosures
    · rw [treatAnimals_cons_heal w a rest treated encs hc]
      have hu := updateAnimalInEnclosures_upd encs ({ a with isSick := false })
      have huS := hu.imp (fun _ _ h => encUpd_scalar h)
      have hx : ∀ e ∈ encs, e.id = ({ a with isSick := false } : Animal).enclosureId →
          ({ a with isSick := false } : Animal).type = e.animalType ∧
            ({ a with isSick := false } : Animal).preferredClimate = e.climate :=
        fun e he hid => h2 a (List.mem_cons_self _ _) e he hid
      obtain ⟨c1, c2, c3, c4⟩ :=
        ih (treated + 1) (updateAnimalInEnclosures encs { a with isSick := false })
          (encInv_of_forall2_encUpd hu h1 hx)
          (regConsist_of_forall2 huS (regConsist_tail h2))
          (regPlaced_of_forall2 huS (regPlaced_tail h3))
      have hScomp := forall2_trans (R := encScalarEq)
        (fun _ _ _ p q => encScalarEq_trans p q) c1 huS
      exact ⟨hScomp, c2,
        regConsist_cons_of hScomp (h2 a (List.mem_cons_self _ _)) c3,
        regPlaced_cons_of hScomp (h3 a (List.mem_cons_self _ _)) c4⟩
    · rw [treatAnimals_cons_skip w a rest treated encs hc]
      obtain ⟨c1, c2, c3, c4⟩ := ih treated encs h1 (regConsist_tail h2) (regPlaced_tail h3)
      exact ⟨c1, c2,
        regConsist_cons_of c1 (h2 a (List.mem_cons_self _ _)) c3,
        regPlaced_cons_of c1 (h3 a (List.mem_cons_self _ _)) c4⟩

theorem vetPhase_nil (as : List Animal) (encs : List Enclosure) :
    vetPhase [] as encs = (as, encs) := rfl

theorem vetPhase_cons_vet (w : Worker) (ws : List Worker) (as : List Animal)
    (encs : List Enclosure)
    (h : w.type = WorkerType.VETERINARIAN ∧ w.daysAssigned > 0) :
    vetPhase (w :: ws) as encs =
      vetPhase ws (treatAnimals w as 0 encs).1 (treatAnimals w as 0 encs).2 := by
  simp only [vetPhase]
  rw [if_pos h]

theorem vetPhase_cons_skip (w : Worker) (ws : List Worker) (as : List Animal)
    (encs : List Enclosure)
    (h : ¬ (w.type = WorkerType.VETERINARIAN ∧ w.daysAssigned > 0)) :
    vetPhase (w :: ws) as encs = vetPhase ws as encs := by
  simp only [vetPhase]
  rw [if_neg h]

theorem vetPhase_preserves :
    ∀ (ws : List Worker) (as : List Animal) (encs : List Enclosure),
      encInv encs → regConsist as encs → regPlaced as encs →
      List.Forall₂ encScalarEq (vetPhase ws as encs).2 encs ∧
      encInv (vetPhase ws as encs).2 ∧
      regConsist (vetPhase ws as encs).1 (vetPhase ws as encs).2 ∧
      regPlaced (vetPhase ws as encs).1 (vetPhase ws as encs).2 := by
  intro ws
  induction ws with
  | nil =>
    intro as encs h1 h2 h3
    rw [vetPhase_nil]
    exact ⟨forall2_refl_of encScalarEq_refl encs, h1, h2, h3⟩
  | cons w ws ih =>
    intro as encs h1 h2 h3
    by_cases hv : w.type = WorkerType.VETERINARIAN ∧ w.daysAssigned > 0
    · rw [vetPhase_cons_vet w ws as encs hv]
      obtain ⟨c1, c2, c3, c4⟩ := treatAnimals_preserves w as 0 encs h1 h2 h3
      obtain ⟨d1, d2, d3, d4⟩ := ih (treatAnimals w as 0 encs).1 (treatAnimals w as 0 encs).2
        c2 c3 c4
      exact ⟨forall2_trans (R := encScalarEq)
        (fun _ _ _ p q => encScalarEq_trans p q) d1 c1, d2, d3, d4⟩
    · rw [vetPhase_cons_skip w ws as encs hv]
      exact ih as encs h1 h2 h3

theorem feedPhase_full (g : Nat → Nat) (as : List Animal) (encs : List Enclosure)
    (tot food : Int) (k : Nat) (h : food ≥ foodDemand as) :
    feedPhase g as encs tot food k = (as, encs, tot, food - foodDemand as, k) := by
  unfold feedPhase
  rw [if_pos h]

theorem feedPhase_short (g : Nat → Nat) (as : List Animal) (encs : List Enclosure)
    (tot food : Int) (k : Nat) (h : ¬ food ≥ foodDemand as) :
    feedPhase g as encs tot food k =
      ((starveLoop g as encs tot k).1, (starveLoop g as encs tot k).2.1,
        (starveLoop g as encs tot k).2.2.1, food, (starveLoop g as encs tot k).2.2.2) := by
  unfold feedPhase
  rw [if_neg h]

theorem feedPhase_preserves (g : Nat → Nat) (as : List Animal) (encs : List Enclosure)
    (tot food : Int) (k : Nat)
    (h1 : encInv encs) (h2 : regConsist as encs) (h3 : regPlaced as encs) :
    List.Forall₂ encErode (feedPhase g as encs tot food k).2.1 encs ∧
    encInv (feedPhase g as encs tot food k).2.1 ∧
    regConsist (feedPhase g as encs tot food k).1 (feedPhase g as encs tot food k).2.1 ∧
    regPlaced (feedPhase g as encs tot food k).1 (feedPhase g as encs tot food k).2.1 := by
  by_cases h : food ≥ foodDemand as
  · rw [feedPhase_full g as encs tot food k h]
    exact ⟨forall2_refl_of encErode_refl encs, h1, h2, h3⟩
  · rw [feedPhase_short g as encs tot food k h]
    exact starveLoop_preserves g as encs tot k h1 h2 h3

theorem forall2_append {α β : Type} {R : α → β → Prop} {l₁ l₃ : List α} {l₂ l₄ : List β}
    (h1 : List.Forall₂ R l₁ l₂) (h2 : List.Forall₂ R l₃ l₄) :
    List.Forall₂ R (l₁ ++ l₃) (l₂ ++ l₄) := by
  induction h1 with
  | nil => exact h2
  | cons hab htail ih => exact List.Forall₂.cons hab ih

theorem nextDay_animals (g : Nat → Nat) (σ : List Nat) (z : Zoo) :
    (nextDay g σ z).animals = (dayFeed g z).1 := rfl

theorem nextDay_enclosures (g : Nat → Nat) (σ : List Nat) (z : Zoo) :
    (nextDay g σ z).enclosures = (dayFeed g z).2.1 := rfl

theorem nextDay_workers (g : Nat → Nat) (σ : List Nat) (z : Zoo) :
    (nextDay g σ z).workers = workerPhase z.workers := rfl

theorem nextDay_totalAnimals (g : Nat → Nat) (σ : List Nat) (z : Zoo) :
    (nextDay g σ z).totalAnimals = (dayFeed g z).2.2.1 := rfl

theorem nextDay_food (g : Nat → Nat) (σ : List Nat) (z : Zoo) :
    (nextDay g σ z).food = (dayFeed g z).2.2.2.1 := rfl

theorem nextDay_loans (g : Nat → Nat) (σ : List Nat) (z : Zoo) :
    (nextDay g σ z).loans =
      (loanPhase
        (z.money + (((nextDay g σ z).visitors : ℚ) * ((dayFeed g z).2.2.1 : ℚ)) -
          salarySum (workerPhase z.workers) - upkeepSum (dayFeed g z).2.1)
        z.loans).2 := rfl

theorem dayFeed_preserves (g : Nat → Nat) (z : Zoo) (h : zooInv z) :
    List.Forall₂ encScalarEq (dayFeed g z).2.1 z.enclosures ∧
    encInv (dayFeed g z).2.1 ∧
    regConsist (dayFeed g z).1 (dayFeed g z).2.1 ∧
    regPlaced (dayFeed g z).1 (dayFeed g z).2.1 := by
  obtain ⟨h1, h2, h3, h4, h5⟩ := h
  obtain ⟨a1, a2, a3, a4⟩ := agePhase_preserves g z.animals z.enclosures z.totalAnimals 10 h1 h2 h3
  obtain ⟨s3, s4⟩ := sickPhase_preserves g (dayAge g z).1 (dayAge g z).2.2.2 (dayAge g z).2.1 a3 a4
  obtain ⟨v1, v2, v3, v4⟩ := vetPhase_preserves (workerPhase z.workers) (daySick g z).1
    (dayAge g z).2.1 a2 s3 s4
  obtain ⟨f1, f2, f3, f4⟩ := feedPhase_preserves g (dayVet g z).1 (dayVet g z).2
    (dayAge g z).2.2.1 z.food (daySick g z).2 v2 v3 v4
  have t1 : List.Forall₂ encScalarEq (dayFeed g z).2.1 (dayAge g z).2.1 :=
    forall2_trans (R := encScalarEq) (fun _ _ _ x y => encScalarEq_trans x y)
      (f1.imp (fun _ _ h => h.1)) v1
  have t2 : List.Forall₂ encScalarEq (dayFeed g z).2.1 z.enclosures :=
    forall2_trans (R := encScalarEq) (fun _ _ _ x y => encScalarEq_trans x y)
      t1 (a1.imp (fun _ _ h => h.1))
  exact ⟨t2, f2, f3, f4⟩

theorem zooInv_nextDay (g : Nat → Nat) (σ : List Nat) (z : Zoo) (h : zooInv z) :
    zooInv (nextDay g σ z) := by
  obtain ⟨c1, c2, c3, c4⟩ := dayFeed_preserves g z h
  exact ⟨c2, c3, c4, idsInc_of_forall2 c1 h.2.2.2.1, idsPos_of_forall2 c1 h.2.2.2.2⟩

theorem zooInv_hireWorker (z : Zoo) (wname : String) (pos : WorkerType)
    (reqs : List Int) (h : zooInv z) : zooInv (hireWorker z wname pos reqs) := by
  unfold hireWorker
  split
  · exact h
  · exact h

theorem zooInv_fireWorker (z : Zoo) (idx : Nat) (h : zooInv z) :
    zooInv (fireWorker z idx) := by
  unfold fireWorker
  split
  · exact h
  · split
    · exact h
    · split
      · exact h
      · exact h

theorem zooInv_assignWorker (z : Zoo) (widx : Nat) (encId dur : Int) (h : zooInv z) :
    zooInv (assignWorker z widx encId dur) := by
  unfold assignWorker
  split
  · exact h
  · split
    · exact h
    · split
      · exact h
      · split
        · exact h
        · split
          · exact h
          · split
            · exact h
            · split
              · exact h
              · split
                · exact h
                · exact h

theorem zooInv_buyFood (z : Zoo) (amount : Int) (h : zooInv z) :
    zooInv (buyFood z amount) := by
  unfold buyFood
  split
  · split
    · exact h
    · exact h
  · exact h

theorem zooInv_advertise (z : Zoo) (amount : Int) (h : zooInv z) :
    zooInv (advertise z amount) := by
  unfold advertise
  split
  · split
    · exact h
    · exact h
  · exact h

theorem zooInv_borrow (z : Zoo) (amount d : Int) (h : zooInv z) :
    zooInv (borrow z amount d) := by
  unfold borrow
  split
  · exact h
  · exact h

theorem zooInv_refreshMarket (g : Nat → Nat) (σ : List Nat) (z : Zoo) (h : zooInv z) :
    zooInv (refreshMarket g σ z) := h

theorem zooInv_marketRefreshPaid (z : Zoo) (g : Nat → Nat) (σ : List Nat) (h : zooInv z) :
    zooInv (marketRefreshPaid z g σ) := by
  unfold marketRefreshPaid
  split
  · exact zooInv_refreshMarket g σ _ h
  · exact h

theorem idsChainB_pairwise : ∀ (l : List Int), idsChainB l = true → l.Pairwise (· < ·) := by
  intro l
  induction l with
  | nil => intro _; exact List.Pairwise.nil
  | cons x rest ih =>
    cases rest with
    | nil => intro _; simp
    | cons y rest2 =>
      intro h
      have h2 : x < y ∧ idsChainB (y :: rest2) = true := by
        simpa [idsChainB] using h
      have hp := ih h2.2
      rw [List.pairwise_cons] at hp ⊢
      refine ⟨?_, ih h2.2⟩
      intro a ha
      rcases List.mem_cons.mp ha with rfl | ha2
      · exact h2.1
      · exact lt_trans h2.1 (hp.1 a ha2)

theorem idsInc_pairwise {encs : List Enclosure} (h : idsInc encs) :
    encs.Pairwise (fun a b => a.id < b.id) :=
  List.pairwise_map.mp (idsChainB_pairwise _ h)

theorem regConsist_mono_left {as' as : List Animal} {encs : List Enclosure}
    (hsub : ∀ x ∈ as', x ∈ as) (h : regConsist as encs) : regConsist as' encs :=
  fun a ha => h a (hsub a ha)

theorem regPlaced_mono_left {as' as : List Animal} {encs : List Enclosure}
    (hsub : ∀ x ∈ as', x ∈ as) (h : regPlaced as encs) : regPlaced as' encs :=
  fun a ha => h a (hsub a ha)

theorem zooInv_sell (z : Zoo) (idx : Nat) (h : zooInv z) : zooInv (sell z idx) := by
  obtain ⟨h1, h2, h3, h4, h5⟩ := h
  cases hm : z.animals.get? idx with
  | none =>
    simp only [sell, hm]
    exact ⟨h1, h2, h3, h4, h5⟩
  | some sold =>
    simp only [sell, hm]
    have hrem := removeAnimalFromEnclosures_erode z.enclosures sold.enclosureId sold.uniqueId
    have hremS := hrem.imp (fun _ _ h => h.1)
    refine ⟨encInv_of_forall2_encErode hrem h1, ?_, ?_,
      idsInc_of_forall2 hremS h4, idsPos_of_forall2 hremS h5⟩
    · exact regConsist_mono_left (fun x hx => List.mem_of_mem_eraseIdx hx)
        (regConsist_of_forall2 hremS h2)
    · exact regPlaced_mono_left (fun x hx => List.mem_of_mem_eraseIdx hx)
        (regPlaced_of_forall2 hremS h3)

theorem zooInv_renameAnimal (z : Zoo) (idx : Nat) (newName : String) (h : zooInv z) :
    zooInv (renameAnimal z idx newName) := by
  obtain ⟨h1, h2, h3, h4, h5⟩ := h
  by_cases hn : newName = ""
  · simp only [renameAnimal, if_pos hn]
    exact ⟨h1, h2, h3, h4, h5⟩
  · simp only [renameAnimal, if_neg hn]
    cases hm : z.animals.get? idx with
    | none => exact ⟨h1, h2, h3, h4, h5⟩
    | some a =>
      have hamem : a ∈ z.animals := List.get?_mem hm
      have hu := updateAnimalInEnclosures_upd z.enclosures ({ a with displayName := newName })
      have huS := hu.imp (fun _ _ h => encUpd_scalar h)
      have hx : ∀ e ∈ z.enclosures,
          e.id = ({ a with displayName := newName } : Animal).enclosureId →
          ({ a with displayName := newName } : Animal).type = e.animalType ∧
            ({ a with displayName := newName } : Animal).preferredClimate = e.climate :=
        fun e he hid => h2 a hamem e he hid
      refine ⟨encInv_of_forall2_encUpd hu h1 hx, ?_, ?_,
        idsInc_of_forall2 huS h4, idsPos_of_forall2 huS h5⟩
      · intro x hx2 e' he' hid
        rcases List.mem_or_eq_of_mem_set hx2 with hmem | rfl
        · exact regConsist_of_forall2 huS h2 x hmem e' he' hid
        · obtain ⟨e, he, hsc⟩ := forall2_mem_left huS he'
          have hide : e.id = a.enclosureId := by rw [← hsc.1]; exact hid
          obtain ⟨t1, t2⟩ := h2 a hamem e he hide
          exact ⟨by rw [hsc.2.2.1]; exact t1, by rw [hsc.2.2.2]; exact t2⟩
      · intro x hx2
        rcases List.mem_or_eq_of_mem_set hx2 with hmem | rfl
        · exact regPlaced_of_forall2 huS h3 x hmem
        · obtain ⟨e, he, hid⟩ := h3 a hamem
          obtain ⟨e', he', hsc⟩ := forall2_mem_right huS he
          exact ⟨e', he', by rw [hsc.1, hid]⟩

theorem canAddAnimal_iff {e : Enclosure} {a : Animal} :
    canAddAnimal e a = true ↔
      (e.animals.length : Int) < e.capacity ∧ a.type = e.animalType ∧
        a.preferredClimate = e.climate := by
  simp [canAddAnimal, Bool.and_eq_true, decide_eq_true_iff, and_assoc]

theorem placeAnimal_spec :
    ∀ (encs : List Enclosure) (a : Animal) (encId : Int) (encs' : List Enclosure),
      placeAnimal encs a encId = some encs' →
      ∃ pre e post, encs = pre ++ e :: post ∧
        encs' = pre ++ { e with animals := e.animals ++ [a] } :: post ∧
        e.id = encId ∧ canAddAnimal e a = true := by
  intro encs
  induction encs with
  | nil =>
    intro a encId encs' h
    simp [placeAnimal] at h
  | cons e rest ih =>
    intro a encId encs' h
    by_cases hc : e.id = encId ∧ canAddAnimal e a
    · rw [placeAnimal, if_pos hc] at h
      exact ⟨[], e, rest, rfl, (Option.some.inj h).symm, hc.1, hc.2⟩
    · rw [placeAnimal, if_neg hc] at h
      rcases Option.map_eq_some'.mp h with ⟨r2, hr2, rfl⟩
      obtain ⟨pre, e2, post, hdec, h2, h3, h4⟩ := ih a encId r2 hr2
      exact ⟨e :: pre, e2, post, by rw [hdec]; rfl, by rw [h2]; rfl, h3, h4⟩

theorem addAnimalToEnclosures_spec :
    ∀ (encs : List Enclosure) (x : Animal) (e₀ : Enclosure),
      e₀ ∈ encs → e₀.id = x.enclosureId →
      ∃ pre e post, encs = pre ++ e :: post ∧ e.id = x.enclosureId ∧
        (∀ y ∈ pre, y.id ≠ x.enclosureId) ∧
        addAnimalToEnclosures encs x =
          pre ++ { e with animals := e.animals ++ [x] } :: post := by
  intro encs
  induction encs with
  | nil => intro x e₀ h; cases h
  | cons e rest ih =>
    intro x e₀ hmem hid
    by_cases hc : e.id = x.enclosureId
    · refine ⟨[], e, rest, rfl, hc, by simp, ?_⟩
      rw [addAnimalToEnclosures, if_pos hc]
      rfl
    · have he₀ : e₀ ∈ rest := by
        rcases List.mem_cons.mp hmem with rfl | h2
        · exact absurd hid hc
        · exact h2
      obtain ⟨pre, e2, post, hdec, h2, h3, h4⟩ := ih x e₀ he₀ hid
      refine ⟨e :: pre, e2, post, by rw [hdec]; rfl, h2, ?_, ?_⟩
      · intro y hy
        rcases List.mem_cons.mp hy with rfl | hy2
        · exact hc
        · exact h3 y hy2
      · rw [addAnimalToEnclosures, if_neg hc, h4]
        rfl

theorem animalAdd_fields {a b : Animal} {r : Nat} {nid : Int} {nb : Animal}
    (h : animalAdd a b r nid = some nb) :
    nb.type = a.type ∧ nb.preferredClimate = a.preferredClimate ∧
      nb.enclosureId = a.enclosureId := by
  unfold animalAdd at h
  by_cases hc : a.enclosureId ≠ b.enclosureId ∨ a.gender = b.gender ∨
      a.ageDays ≤ 5 ∨ b.ageDays ≤ 5
  · rw [if_pos hc] at h
    cases h
  · rw [if_neg hc] at h
    have := Option.some.inj h
    subst this
    exact ⟨rfl, rfl, rfl⟩

theorem zooBreed_ok_cases {z : Zoo} {i j : Nat} {r : Nat} {z2 : Zoo}
    (h : zooBreed z i j r = Except.ok z2) :
    ∃ a b nb, z.animals.get? i = some a ∧ z.animals.get? j = some b ∧
      animalAdd a b r z.nextAnimalId = some nb ∧
      (∃ e₀ ∈ z.enclosures, e₀.id = a.enclosureId ∧ canAddAnimal e₀ a = true) ∧
      z2 = { z with enclosures := addAnimalToEnclosures z.enclosures nb,
                    animals := z.animals ++ [nb],
                    totalAnimals := z.totalAnimals + 1,
                    nextAnimalId := z.nextAnimalId + 1 } := by
  unfold zooBreed at h
  by_cases c1 : z.animals.length < 2
  · rw [if_pos c1] at h
    cases h
  · rw [if_neg c1] at h
    by_cases c2 : i = j
    · rw [if_pos c2] at h
      cases h
    · rw [if_neg c2] at h
      cases hi : z.animals.get? i with
      | none =>
        cases hj : z.animals.get? j with
        | none => rw [hi, hj] at h; cases h
        | some b => rw [hi, hj] at h; cases h
      | some a =>
        cases hj : z.animals.get? j with
        | none => rw [hi, hj] at h; cases h
        | some b =>
          rw [hi, hj] at h
          simp only at h
          by_cases c3 : a.enclosureId ≠ b.enclosureId
          · rw [if_pos c3] at h
            cases h
          · rw [if_neg c3] at h
            by_cases c4 : z.enclosures.any
                (fun e => decide (e.id = a.enclosureId) && canAddAnimal e a) = true
            · rw [if_pos c4] at h
              cases hn : animalAdd a b r z.nextAnimalId with
              | none => rw [hn] at h; cases h
              | some nb =>
                rw [hn] at h
                refine ⟨a, b, nb, rfl, rfl, hn, ?_, (Except.ok.inj h).symm⟩
                obtain ⟨e₀, he₀, hb⟩ := List.any_eq_true.mp c4
                rw [Bool.and_eq_true, decide_eq_true_iff] at hb
                exact ⟨e₀, he₀, hb.1, hb.2⟩
            · rw [if_neg c4] at h
              cases h

theorem zooInv_applyBreed (z : Zoo) (i j : Nat) (r : Nat) (h : zooInv z) :
    zooInv (applyBreed z i j r) := by
  unfold applyBreed
  cases hb : zooBreed z i j r with
  | error e => exact h
  | ok z2 =>
    obtain ⟨a, b, nb, hi, hj, hn, ⟨e₀, he₀, hid₀, hcan₀⟩, rfl⟩ := zooBreed_ok_cases hb
    obtain ⟨h1, h2, h3, h4, h5⟩ := h
    obtain ⟨hty, hcl, hencid⟩ := animalAdd_fields hn
    have hamem : a ∈ z.animals := List.get?_mem hi
    have hid₀x : e₀.id = nb.enclosureId := by rw [hencid]; exact hid₀
    obtain ⟨pre, e, post, hdec, hide, hpre, hadd⟩ :=
      addAnimalToEnclosures_spec z.enclosures nb e₀ he₀ hid₀x
    have hpw := idsInc_pairwise h4
    rw [hdec, List.pairwise_append] at hpw
    obtain ⟨hpw1, hpw2, hpw3⟩ := hpw
    rw [List.pairwise_cons] at hpw2
    have heq : e₀ = e := by
      have he₀2 := he₀
      rw [hdec] at he₀2
      rcases List.mem_append.mp he₀2 with hp | hp
      · exact absurd hid₀x (hpre e₀ hp)
      · rcases List.mem_cons.mp hp with h' | hp2
        · exact h'
        · exfalso
          have hlt := hpw2.1 e₀ hp2
          rw [hid₀x, hide] at hlt
          exact lt_irrefl _ hlt

    subst heq
    obtain ⟨hcap, htyE, hclE⟩ := canAddAnimal_iff.mp hcan₀
    have hS : List.Forall₂ encScalarEq
        (pre ++ { e₀ with animals := e₀.animals ++ [nb] } :: post) z.enclosures := by
      rw [hdec]
      exact forall2_append (forall2_refl_of encScalarEq_refl pre)
        (List.Forall₂.cons ⟨rfl, rfl, rfl, rfl⟩ (forall2_refl_of encScalarEq_refl post))
    rw [hadd]
    refine ⟨?_, ?_, ?_, ?_, ?_⟩
    · -- encInv
      intro x hx
      have he₀mem : e₀ ∈ z.enclosures := he₀
      rcases List.mem_append.mp hx with hp | hp
      · have hxz : x ∈ z.enclosures := by
          rw [hdec]
          exact List.mem_append.mpr (Or.inl hp)
        exact h1 x hxz
      · rcases List.mem_cons.mp hp with rfl | hp2
        · constructor
          · simp only [List.length_append, List.length_cons, List.length_nil]
            omega
          · intro y hy
            rcases List.mem_append.mp hy with hy1 | hy2
            · exact (h1 e₀ he₀mem).2 y hy1
            · rcases List.mem_cons.mp hy2 with rfl | hy3
              · exact ⟨by rw [hty]; exact htyE, by rw [hcl]; exact hclE⟩
              · cases hy3
        · have hxz : x ∈ z.enclosures := by
            rw [hdec]
            exact List.mem_append.mpr (Or.inr (List.mem_cons_of_mem _ hp2))
          exact h1 x hxz
    · -- regConsist
      intro x hx e' he' hid
      rcases List.mem_append.mp hx with hxold | hxnb
      · exact regConsist_of_forall2 hS h2 x hxold e' he' hid
      · have hxeq : x = nb := by
          rcases List.mem_cons.mp hxnb with h' | h'
          · exact h'
          · cases h'
        subst hxeq
        rcases List.mem_append.mp he' with hp | hp
        · exact absurd hid (hpre e' hp)
        · rcases List.mem_cons.mp hp with rfl | hp2
          · exact ⟨by rw [hty]; exact htyE, by rw [hcl]; exact hclE⟩
          · exfalso
            have hlt := hpw2.1 e' hp2
            rw [hide] at hlt
            rw [hid] at hlt
            exact lt_irrefl _ hlt
    · -- regPlaced
      intro x hx
      rcases List.mem_append.mp hx with hxold | hxnb
      · exact regPlaced_of_forall2 hS h3 x hxold
      · have hxeq : x = nb := by
          rcases List.mem_cons.mp hxnb with h' | h'
          · exact h'
          · cases h'
        rw [hxeq]
        exact ⟨{ e₀ with animals := e₀.animals ++ [nb] },
          List.mem_append.mpr (Or.inr (List.mem_cons_self _ _)), hide⟩
    · exact idsInc_of_forall2 hS h4
    · exact idsPos_of_forall2 hS h5

theorem zooInv_purchase (z : Zoo) (idx : Nat) (encId : Int) (h : zooInv z) :
    zooInv (purchase z idx encId) := by
  obtain ⟨h1, h2, h3, h4, h5⟩ := h
  unfold purchase
  by_cases c1 : z.day > 10 ∧ z.animalsBoughtToday ≥ 1
  · rw [if_pos c1]
    exact ⟨h1, h2, h3, h4, h5⟩
  · rw [if_neg c1]
    cases hm : z.marketAnimals.get? idx with
    | none => exact ⟨h1, h2, h3, h4, h5⟩
    | some sel =>
      simp only
      by_cases c2 : (sel.price : ℚ) ≤ z.money
      · rw [if_pos c2]
        by_cases c3 : z.enclosures.any (fun e => canAddAnimal e sel) = true
        · rw [if_pos c3]
          cases hp : placeAnimal z.enclosures { sel with enclosureId := encId } encId with
          | none => exact ⟨h1, h2, h3, h4, h5⟩
          | some encs2 =>
            simp only
            obtain ⟨pre, e, post, hdec, henc2, hide, hcan⟩ :=
              placeAnimal_spec z.enclosures { sel with enclosureId := encId } encId encs2 hp
            obtain ⟨hcap, htyE, hclE⟩ := canAddAnimal_iff.mp hcan
            have hpw := idsInc_pairwise h4
            rw [hdec, List.pairwise_append] at hpw
            obtain ⟨hpw1, hpw2, hpw3⟩ := hpw
            rw [List.pairwise_cons] at hpw2
            have hememz : e ∈ z.enclosures := by
              rw [hdec]
              exact List.mem_append.mpr (Or.inr (List.mem_cons_self _ _))
            have hS : List.Forall₂ encScalarEq encs2 z.enclosures := by
              rw [hdec, henc2]
              exact forall2_append (forall2_refl_of encScalarEq_refl pre)
                (List.Forall₂.cons ⟨rfl, rfl, rfl, rfl⟩ (forall2_refl_of encScalarEq_refl post))
            refine ⟨?_, ?_, ?_, idsInc_of_forall2 hS h4, idsPos_of_forall2 hS h5⟩
            · -- encInv
              rw [henc2]
              intro x hx
              rcases List.mem_append.mp hx with hxp | hxp
              · have hxz : x ∈ z.enclosures := by
                  rw [hdec]
                  exact List.mem_append.mpr (Or.inl hxp)
                exact h1 x hxz
              · rcases List.mem_cons.mp hxp with rfl | hxp2
                · constructor
                  · simp only [List.length_append, List.length_cons, List.length_nil]
                    omega
                  · intro y hy
                    rcases List.mem_append.mp hy with hy1 | hy2
                    · exact (h1 e hememz).2 y hy1
                    · rcases List.mem_cons.mp hy2 with rfl | hy3
                      · exact ⟨htyE, hclE⟩
                      · cases hy3
                · have hxz : x ∈ z.enclosures := by
                    rw [hdec]
                    exact List.mem_append.mpr (Or.inr (List.mem_cons_of_mem _ hxp2))
                  exact h1 x hxz
            · -- regConsist
              intro x hx e' he' hid
              rcases List.mem_append.mp hx with hxold | hxnew
              · exact regConsist_of_forall2 hS h2 x hxold e' he' hid
              · have hxeq : x = { sel with enclosureId := encId } := by
                  rcases List.mem_cons.mp hxnew with h' | h'
                  · exact h'
                  · cases h'
                subst hxeq
                rw [henc2] at he'
                rcases List.mem_append.mp he' with hp2 | hp2
                · exfalso
                  have hlt := hpw3 e' hp2 e (List.mem_cons_self _ _)
                  rw [hide] at hlt
                  rw [hid] at hlt
                  exact lt_irrefl _ hlt
                · rcases List.mem_cons.mp hp2 with rfl | hp3
                  · exact ⟨htyE, hclE⟩
                  · exfalso
                    have hlt := hpw2.1 e' hp3
                    rw [hide] at hlt
                    rw [hid] at hlt
                    exact lt_irrefl _ hlt
            · -- regPlaced
              intro x hx
              rcases List.mem_append.mp hx with hxold | hxnew
              · exact regPlaced_of_forall2 hS h3 x hxold
              · have hxeq : x = { sel with enclosureId := encId } := by
                  rcases List.mem_cons.mp hxnew with h' | h'
                  · exact h'
                  · cases h'
                rw [hxeq, henc2]
                exact ⟨{ e with animals := e.animals ++ [{ sel with enclosureId := encId }] },
                  List.mem_append.mpr (Or.inr (List.mem_cons_self _ _)), hide⟩
        · rw [if_neg c3]
          exact ⟨h1, h2, h3, h4, h5⟩
      · rw [if_neg c2]
        exact ⟨h1, h2, h3, h4, h5⟩

theorem idsChainB_append_lt :
    ∀ (l : List Int) (x : Int), idsChainB l = true → (∀ y ∈ l, y < x) →
      idsChainB (l ++ [x]) = true := by
  intro l x
  induction l with
  | nil => intro _ _; rfl
  | cons a rest ih =>
    cases rest with
    | nil =>
      intro _ hlt
      simp [idsChainB, hlt a (List.mem_singleton.mpr rfl)]
    | cons b rest2 =>
      intro hch hlt
      have h2 : a < b ∧ idsChainB (b :: rest2) = true := by
        simpa [idsChainB] using hch
      have h3 := ih h2.2 (fun y hy => hlt y (List.mem_cons_of_mem _ hy))
      have hgoal : idsChainB (a :: b :: (rest2 ++ [x])) = true := by
        have h4 : idsChainB (b :: (rest2 ++ [x])) = true := by
          simpa using h3
        simp [idsChainB, h2.1, h4]
      simpa using hgoal

theorem last_id_max {encs : List Enclosure} (h : idsInc encs) {glast : Enclosure}
    (hg : encs.getLast? = some glast) : ∀ e ∈ encs, e.id ≤ glast.id := by
  obtain ⟨ys, hys⟩ := List.getLast?_eq_some_iff.mp hg
  have hpw := idsInc_pairwise h
  rw [hys, List.pairwise_append] at hpw
  intro e he
  rw [hys] at he
  rcases List.mem_append.mp he with hy | hg2
  · exact le_of_lt (hpw.2.2 e hy glast (List.mem_singleton.mpr rfl))
  · rw [List.mem_singleton.mp hg2]

theorem getLast?_mem' {encs : List Enclosure} {glast : Enclosure}
    (hg : encs.getLast? = some glast) : glast ∈ encs := by
  obtain ⟨ys, hys⟩ := List.getLast?_eq_some_iff.mp hg
  rw [hys]
  exact List.mem_append.mpr (Or.inr (List.mem_singleton.mpr rfl))

theorem zooInv_buildEnclosure (z : Zoo) (cap : Int) (t : AnimalType) (c : Climate)
    (h : zooInv z) : zooInv (buildEnclosure z cap t c) := by
  obtain ⟨h1, h2, h3, h4, h5⟩ := h
  unfold buildEnclosure
  by_cases c1 : 1 ≤ cap ∧ cap ≤ 100
  · rw [if_pos c1]
    obtain ⟨c1a, c1b⟩ := c1
    by_cases c2 : ((cap * 50 : Int) : ℚ) ≤ z.money
    · rw [if_pos c2]
      cases hl : z.enclosures.getLast? with
      | none =>
        have hnil : z.enclosures = [] := List.getLast?_eq_none_iff.mp hl
        simp only
        refine ⟨?_, ?_, ?_, ?_, ?_⟩
        · intro e' he'
          rw [hnil] at he'
          have he2 := List.mem_singleton.mp (by simpa using he')
          rw [he2]
          refine ⟨?_, ?_⟩
          · simp only [List.length_nil, Nat.cast_zero]
            omega
          · intro y hy
            exact absurd hy (List.not_mem_nil _)
        · intro a ha
          obtain ⟨e, he, _⟩ := h3 a ha
          rw [hnil] at he
          cases he
        · intro a ha
          obtain ⟨e, he, _⟩ := h3 a ha
          rw [hnil] at he
          cases he
        · rw [hnil]
          rfl
        · intro e' he'
          rw [hnil] at he'
          have he2 := List.mem_singleton.mp (by simpa using he')
          rw [he2]
      | some glast =>
        simp only
        have hmax := last_id_max h4 hl
        have hlt : ∀ e ∈ z.enclosures, e.id < glast.id + 1 :=
          fun e he => Int.lt_add_one_iff.mpr (hmax e he)
        refine ⟨?_, ?_, ?_, ?_, ?_⟩
        · intro e' he'
          rcases List.mem_append.mp he' with hp | hp
          · exact h1 e' hp
          · rcases List.mem_cons.mp hp with rfl | h'
            · refine ⟨?_, ?_⟩
              · simp only [List.length_nil, Nat.cast_zero]
                omega
              · intro y hy
                exact absurd hy (List.not_mem_nil _)
            · cases h'
        · intro a ha e' he' hid
          rcases List.mem_append.mp he' with hp | hp
          · exact h2 a ha e' hp hid
          · rcases List.mem_cons.mp hp with rfl | h'
            · exfalso
              obtain ⟨e, he, hide⟩ := h3 a ha
              have := hlt e he
              rw [hide, ← hid] at this
              exact lt_irrefl _ this
            · cases h'
        · intro a ha
          obtain ⟨e, he, hide⟩ := h3 a ha
          exact ⟨e, List.mem_append.mpr (Or.inl he), hide⟩
        · unfold idsInc
          rw [List.map_append]
          apply idsChainB_append_lt _ _ h4
          intro y hy
          obtain ⟨e, he, rfl⟩ := List.mem_map.mp hy
          exact hlt e he
        · intro e' he'
          rcases List.mem_append.mp he' with hp | hp
          · exact h5 e' hp
          · rcases List.mem_cons.mp hp with rfl | h'
            · have := h5 glast (getLast?_mem' hl)
              show (1 : Int) ≤ glast.id + 1
              omega
            · cases h'
    · rw [if_neg c2]
      exact ⟨h1, h2, h3, h4, h5⟩
  · rw [if_neg c1]
    exact ⟨h1, h2, h3, h4, h5⟩

theorem zooInv_mkZoo (name : String) (g : Nat → Nat) (σ : List Nat) :
    zooInv (mkZoo name g σ) := by
  refine ⟨?_, ?_, ?_, ?_, ?_⟩
  · intro e he
    have he2 : e = initialEnclosure := by
      simpa [mkZoo, refreshMarket] using he
    rw [he2]
    refine ⟨?_, ?_⟩
    · simp [initialEnclosure]
    · intro y hy
      exact absurd hy (List.not_mem_nil _)
  · intro a ha
    exact absurd ha (List.not_mem_nil _)
  · intro a ha
    exact absurd ha (List.not_mem_nil _)
  · rfl
  · intro e he
    have he2 : e = initialEnclosure := by
      simpa [mkZoo, refreshMarket] using he
    rw [he2]
    simp [initialEnclosure]

theorem zooInv_applyOp (op : Op) (z : Zoo) (h : zooInv z) : zooInv (applyOp op z) := by
  cases op with
  | purchaseOp idx encId => exact zooInv_purchase z idx encId h
  | sellOp idx => exact zooInv_sell z idx h
  | renameOp idx newName => exact zooInv_renameAnimal z idx newName h
  | breedOp i j r => exact zooInv_applyBreed z i j r h
  | buildOp cap t c => exact zooInv_buildEnclosure z cap t c h
  | hireOp wname pos reqs => exact zooInv_hireWorker z wname pos reqs h
  | fireOp idx => exact zooInv_fireWorker z idx h
  | assignOp widx encId dur => exact zooInv_assignWorker z widx encId dur h
  | buyFoodOp amount => exact zooInv_buyFood z amount h
  | advertiseOp amount => exact zooInv_advertise z amount h
  | borrowOp amount d => exact zooInv_borrow z amount d h
  | marketOp g σ => exact zooInv_marketRefreshPaid z g σ h
  | advanceOp g σ => exact zooInv_nextDay g σ z h

/-- C1: in every zoo state reachable from the constructor through the core
operations (purchase, sell, rename, breed, build enclosure, hire/fire/assign
worker, the purchase-menu extras and day-advance), every enclosure satisfies
the placement invariant: each resident's diet class equals the enclosure's,
each resident's preferred climate equals the enclosure's, and the resident
count is at most the capacity. -/
theorem claim1_placement_invariant (z : Zoo) (h : Reachable z) :
    ∀ e ∈ z.enclosures, (e.animals.length : Int) ≤ e.capacity ∧
      ∀ a ∈ e.animals, a.type = e.animalType ∧ a.preferredClimate = e.climate := by
  have hz : zooInv z := by
    induction h with
    | init name g σ => exact zooInv_mkZoo name g σ
    | step z2 op h2 ih => exact zooInv_applyOp op z2 ih
  exact hz.1

theorem claim1_placement_invariant_witness :
    ((initialEnclosure.animals.length : Int) ≤ initialEnclosure.capacity) :=
  (claim1_placement_invariant
      (applyOp (Op.advanceOp gZero sigmaId) (mkZoo "Зоопарк" gZero sigmaId))
      (Reachable.step _ _ (Reachable.init "Зоопарк" gZero sigmaId))
      initialEnclosure (by decide)).1

/-- C4: for every eligible pair (same enclosure, opposite sexes, both older
than 5 days, here with the non-negative prices every zoo animal has),
breeding succeeds and the newborn has: species = first half of a's species
name ++ second half of b's, display name = that label with the fixed newborn
suffix, sex in {male, female}, weight = (a.weight + b.weight)/4, price =
floor((a.price + b.price)/2), diet class / climate / enclosure from a,
age 0, parent pair (a.displayName, b.displayName), born-in-zoo true. -/
theorem claim4_newborn (a b : Animal) (r : Nat) (nid : Int)
    (hsame : a.enclosureId = b.enclosureId) (hsex : a.gender ≠ b.gender)
    (hage1 : 5 < a.ageDays) (hage2 : 5 < b.ageDays)
    (hpa : 0 ≤ a.price) (hpb : 0 ≤ b.price) :
    (animalAdd a b r nid).map (fun nb => nb.species) =
      some (a.species.take (a.species.length / 2) ++
        b.species.drop (b.species.length / 2)) ∧
    (animalAdd a b r nid).map (fun nb => nb.displayName) =
      some ((a.species.take (a.species.length / 2) ++
        b.species.drop (b.species.length / 2)) ++ "_Новорождённый") ∧
    ((animalAdd a b r nid).map (fun nb => nb.gender) = some Gender.MALE ∨
      (animalAdd a b r nid).map (fun nb => nb.gender) = some Gender.FEMALE) ∧
    (animalAdd a b r nid).map (fun nb => nb.weight) = some ((a.weight + b.weight) / 4) ∧
    (animalAdd a b r nid).map (fun nb => nb.price) =
      some ⌊((a.price : ℚ) + (b.price : ℚ)) / 2⌋ ∧
    (animalAdd a b r nid).map (fun nb => nb.type) = some a.type ∧
    (animalAdd a b r nid).map (fun nb => nb.preferredClimate) = some a.preferredClimate ∧
    (animalAdd a b r nid).map (fun nb => nb.enclosureId) = some a.enclosureId ∧
    (animalAdd a b r nid).map (fun nb => nb.ageDays) = some 0 ∧
    (animalAdd a b r nid).map (fun nb => nb.parents) = some (a.displayName, b.displayName) ∧
    (animalAdd a b r nid).map (fun nb => nb.isBornInZoo) = some true := by
  have hc : ¬ (a.enclosureId ≠ b.enclosureId ∨ a.gender = b.gender ∨
      a.ageDays ≤ 5 ∨ b.ageDays ≤ 5) := by
    push_neg
    exact ⟨hsame, hsex, hage1, hage2⟩
  have hprice : Int.tdiv (a.price + b.price) 2 = ⌊((a.price : ℚ) + (b.price : ℚ)) / 2⌋ := by
    rw [Int.tdiv_eq_ediv (by omega) (by omega)]
    have h2 : (((a.price + b.price : ℤ) : ℚ)) / (((2 : ℕ)) : ℚ) =
        ((a.price : ℚ) + (b.price : ℚ)) / 2 := by
      push_cast
      ring
    rw [← h2, Rat.floor_intCast_div_natCast]
    norm_num
  unfold animalAdd
  rw [if_neg hc]
  refine ⟨rfl, rfl, ?_, rfl, ?_, rfl, rfl, rfl, rfl, rfl, rfl⟩
  · by_cases hr : r % 2 = 0
    · left
      simp [hr]
    · right
      simp [hr]
  · simp only [Option.map_some']
    rw [← hprice]

theorem claim4_newborn_witness :
    (animalAdd sampleMale sampleFemale 0 3).map (fun nb => nb.weight) =
      some ((sampleMale.weight + sampleFemale.weight) / 4) :=
  (claim4_newborn sampleMale sampleFemale 0 3 rfl (by decide) (by decide)
    (by decide) (by decide) (by decide)).2.2.2.1

/-- C5 (amended): a chosen breeding pair (distinct valid registry indices)
fails with an ineligible-pairing error (the enclosure-mismatch report or the
`operator+` throw) if and only if the two animals are in different
enclosures, or they share an enclosure that still has room for the newborn
while the pair is same-sex or not older than 5 days.  When the pair shares a
full enclosure the attempt fails with the no-space error instead, even for a
same-sex or under-age pair.  Every failed attempt leaves the zoo unchanged. -/
theorem claim5_breeding_errors (z : Zoo) (i j : Nat) (r : Nat) (a b : Animal)
    (hij : i ≠ j) (ha : z.animals.get? i = some a) (hb : z.animals.get? j = some b) :
    ((∃ e, zooBreed z i j r = Except.error e ∧ e.isPairingError = true) ↔
      (a.enclosureId ≠ b.enclosureId ∨
        (z.enclosures.any (fun e => decide (e.id = a.enclosureId) && canAddAnimal e a) = true ∧
          (a.gender = b.gender ∨ a.ageDays ≤ 5 ∨ b.ageDays ≤ 5)))) ∧
    (∀ e, zooBreed z i j r = Except.error e → applyBreed z i j r = z) := by
  have hlen : ¬ z.animals.length < 2 := by
    have h1 := (List.get?_eq_some.mp ha).1
    have h2 := (List.get?_eq_some.mp hb).1
    omega
  by_cases c3 : a.enclosureId ≠ b.enclosureId
  · have hzb : zooBreed z i j r = Except.error BreedErr.differentEnclosures := by
      simp only [zooBreed, if_neg hlen, if_neg hij, ha, hb]
      rw [if_pos c3]
    refine ⟨?_, ?_⟩
    · rw [hzb]
      exact iff_of_true ⟨BreedErr.differentEnclosures, rfl, rfl⟩ (Or.inl c3)
    · intro e he
      unfold applyBreed
      rw [hzb]
  · by_cases c4 : z.enclosures.any
        (fun e => decide (e.id = a.enclosureId) && canAddAnimal e a) = true
    · by_cases c5 : a.gender = b.gender ∨ a.ageDays ≤ 5 ∨ b.ageDays ≤ 5
      · have hadd : animalAdd a b r z.nextAnimalId = none := by
          unfold animalAdd
          rw [if_pos (Or.inr c5)]
        have hzb : zooBreed z i j r = Except.error BreedErr.ineligible := by
          simp only [zooBreed, if_neg hlen, if_neg hij, ha, hb]
          rw [if_neg c3, if_pos c4, hadd]
        refine ⟨?_, ?_⟩
        · rw [hzb]
          exact iff_of_true ⟨BreedErr.ineligible, rfl, rfl⟩ (Or.inr ⟨c4, c5⟩)
        · intro e he
          unfold applyBreed
          rw [hzb]
      · have hcond : ¬ (a.enclosureId ≠ b.enclosureId ∨ a.gender = b.gender ∨
            a.ageDays ≤ 5 ∨ b.ageDays ≤ 5) := by
          intro hor
          rcases hor with h' | h'
          · exact c3 h'
          · exact c5 h'
        have hzb : ∃ z2, zooBreed z i j r = Except.ok z2 := by
          simp only [zooBreed, if_neg hlen, if_neg hij, ha, hb]
          rw [if_neg c3, if_pos c4]
          unfold animalAdd
          rw [if_neg hcond]
          exact ⟨_, rfl⟩
        obtain ⟨z2, hzb⟩ := hzb
        refine ⟨?_, ?_⟩
        · rw [hzb]
          refine iff_of_false ?_ ?_
          · rintro ⟨e, he, _⟩
            cases he
          · rintro (h' | ⟨_, h'⟩)
            · exact c3 h'
            · exact c5 h'
        · intro e he
          rw [hzb] at he
          cases he
    · have hzb : zooBreed z i j r = Except.error BreedErr.noSpace := by
        simp only [zooBreed, if_neg hlen, if_neg hij, ha, hb]
        rw [if_neg c3, if_neg c4]
      refine ⟨?_, ?_⟩
      · rw [hzb]
        refine iff_of_false ?_ ?_
        · rintro ⟨e, he, hpe⟩
          have : e = BreedErr.noSpace := (Except.error.inj he).symm
          rw [this] at hpe
          cases hpe
        · rintro (h' | ⟨h', _⟩)
          · exact c3 h'
          · exact c4 h'
      · intro e he
        unfold applyBreed
        rw [hzb]

theorem claim5_breeding_errors_witness :
    ((∃ e, zooBreed zooTwoMales 0 1 0 = Except.error e ∧ e.isPairingError = true) ↔
      (sampleMale.enclosureId ≠ ({ sampleMale with uniqueId := 2 } : Animal).enclosureId ∨
        (zooTwoMales.enclosures.any
            (fun e => decide (e.id = sampleMale.enclosureId) && canAddAnimal e sampleMale) = true ∧
          (sampleMale.gender = ({ sampleMale with uniqueId := 2 } : Animal).gender ∨
            sampleMale.ageDays ≤ 5 ∨
            ({ sampleMale with uniqueId := 2 } : Animal).ageDays ≤ 5)))) ∧
    (∀ e, zooBreed zooTwoMales 0 1 0 = Except.error e → applyBreed zooTwoMales 0 1 0 = zooTwoMales) :=
  claim5_breeding_errors zooTwoMales 0 1 0 sampleMale
    ({ sampleMale with uniqueId := 2 }) (by decide) rfl rfl

/-- C5 counterexample: the two animals of `zooTwoMales` are a same-sex pair
in the same (full) enclosure, so by the claim breeding should fail with an
ineligible-pairing error; the code fails the free-space pre-check first and
reports no-space, which is not a pairing error. -/
theorem claim5_counterexample :
    (zooTwoMales.animals.get? 0).map (fun a => a.gender) = some Gender.MALE ∧
    (zooTwoMales.animals.get? 1).map (fun a => a.gender) = some Gender.MALE ∧
    (zooTwoMales.animals.get? 0).map (fun a => a.enclosureId) =
      (zooTwoMales.animals.get? 1).map (fun a => a.enclosureId) ∧
    zooBreed zooTwoMales 0 1 0 = Except.error BreedErr.noSpace ∧
    BreedErr.noSpace.isPairingError = false := by
  refine ⟨rfl, rfl, rfl, ?_, rfl⟩
  rfl

theorem le_foldr_max : ∀ (l : List Int) (b x : Int), x ∈ l → x ≤ l.foldr max b := by
  intro l
  induction l with
  | nil => intro b x hx; cases hx
  | cons a rest ih =>
    intro b x hx
    rcases List.mem_cons.mp hx with rfl | hx2
    · exact le_max_left _ _
    · exact le_trans (ih b x hx2) (le_max_right _ _)

theorem foldr_max_le : ∀ (l : List Int) (b c : Int), b ≤ c → (∀ x ∈ l, x ≤ c) →
    l.foldr max b ≤ c := by
  intro l
  induction l with
  | nil => intro b c hb _; exact hb
  | cons a rest ih =>
    intro b c hb hall
    exact max_le (hall a (List.mem_cons_self _ _))
      (ih b c hb (fun x hx => hall x (List.mem_cons_of_mem _ hx)))

theorem maxEncId_eq_getLast {encs : List Enclosure} (hchain : idsInc encs)
    (hpos : idsPos encs) {gl : Enclosure} (hg : encs.getLast? = some gl) :
    maxEncId encs = gl.id := by
  apply le_antisymm
  · apply foldr_max_le
    · have := hpos gl (getLast?_mem' hg)
      omega
    · intro x hx
      obtain ⟨e, he, rfl⟩ := List.mem_map.mp hx
      exact last_id_max hchain hg e he
  · exact le_foldr_max _ _ _ (List.mem_map.mpr ⟨gl, getLast?_mem' hg, rfl⟩)

/-- C10: building an enclosure with capacity `c` (the shell validates
`1 ≤ c ≤ 100`) succeeds iff the cash balance is at least `50 × c`; on
success exactly `50 × c` is debited and a new empty enclosure is appended
whose daily upkeep is `2 × c` and whose identity is the previous highest
enclosure identity plus one (1 when no enclosure exists); on insufficient
funds nothing is mutated. -/
theorem claim10_build_enclosure (z : Zoo) (cap : Int) (t : AnimalType) (c : Climate)
    (hcap : 1 ≤ cap ∧ cap ≤ 100) (hchain : idsInc z.enclosures)
    (hpos : idsPos z.enclosures) :
    (((cap * 50 : Int) : ℚ) ≤ z.money →
      buildEnclosure z cap t c =
        { z with money := z.money - ((cap * 50 : Int) : ℚ),
                 enclosures := z.enclosures ++ [builtEnclosure z.enclosures cap t c] }) ∧
    (¬ ((cap * 50 : Int) : ℚ) ≤ z.money → buildEnclosure z cap t c = z) := by
  constructor
  · intro hmoney
    unfold buildEnclosure
    rw [if_pos hcap, if_pos hmoney]
    cases hl : z.enclosures.getLast? with
    | none =>
      have hnil := List.getLast?_eq_none_iff.mp hl
      simp [hnil, builtEnclosure, maxEncId]
    | some gl =>
      have hmax := maxEncId_eq_getLast hchain hpos hl
      simp [hl, builtEnclosure, hmax]
  · intro hmoney
    unfold buildEnclosure
    rw [if_pos hcap, if_neg hmoney]

theorem loanStep_money : ∀ (m : ℚ) (ls : List Loan),
    (loanStep m ls).1 =
      m - ((ls.filter (fun l => decide (0 < l.daysLeft))).map
        (fun l => l.dailyRepayment)).sum := by
  intro m ls
  induction ls generalizing m with
  | nil => simp [loanStep]
  | cons l rest ih =>
    by_cases hl : l.daysLeft > 0
    · simp only [loanStep, if_pos hl]
      rw [ih]
      rw [List.filter_cons, if_pos (by simpa using hl)]
      simp only [List.map_cons, List.sum_cons]
      ring
    · simp only [loanStep, if_neg hl]
      rw [ih]
      rw [List.filter_cons, if_neg (by simpa using hl)]

theorem loanStep_loans : ∀ (m : ℚ) (ls : List Loan),
    (loanStep m ls).2 =
      ls.map (fun l => if 0 < l.daysLeft then { l with daysLeft := l.daysLeft - 1 } else l) := by
  intro m ls
  induction ls generalizing m with
  | nil => simp [loanStep]
  | cons l rest ih =>
    by_cases hl : l.daysLeft > 0
    · simp only [loanStep, if_pos hl, List.map_cons]
      rw [ih]
    · simp only [loanStep, if_neg hl, List.map_cons]
      rw [ih]

theorem loanPhase_money_eq (m : ℚ) (ls : List Loan) :
    (loanPhase m ls).1 =
      m - ((ls.filter (fun l => decide (0 < l.daysLeft))).map
        (fun l => l.dailyRepayment)).sum := by
  simp only [loanPhase]
  rw [loanStep_money]

theorem loanPhase_loans_eq (m : ℚ) (ls : List Loan) :
    (loanPhase m ls).2 =
      (ls.map (fun l => if 0 < l.daysLeft then { l with daysLeft := l.daysLeft - 1 }
        else l)).filter (fun l => decide (0 < l.daysLeft)) := by
  simp only [loanPhase]
  rw [loanStep_loans]

theorem loanIter_single (p rate : ℚ) (d : Nat) (hd : 0 < d) (m : ℚ) :
    ∀ n : Nat, n ≤ d →
      (loanIter n (m, [mkLoan p (d : Int) rate])).1 =
        m - n * ((p + p * rate * (d : ℚ)) / (d : ℚ)) ∧
      (loanIter n (m, [mkLoan p (d : Int) rate])).2 =
        (if n = d then []
          else [{ mkLoan p (d : Int) rate with daysLeft := (d : Int) - n }]) := by
  intro n
  induction n with
  | zero =>
    intro _
    constructor
    · simp [loanIter]
    · rw [if_neg (by omega)]
      simp [loanIter, mkLoan]
  | succ n ih =>
    intro hn1
    have hn : n ≤ d := by omega
    have hnd : n < d := by omega
    obtain ⟨ih1, ih2⟩ := ih hn
    rw [if_neg (by omega)] at ih2
    have hstep : loanIter (n + 1) (m, [mkLoan p (d : Int) rate]) =
        loanPhase (loanIter n (m, [mkLoan p (d : Int) rate])).1
          (loanIter n (m, [mkLoan p (d : Int) rate])).2 := rfl
    constructor
    · rw [hstep, ih1, ih2, loanPhase_money_eq]
      rw [List.filter_cons, if_pos (by simp only [decide_eq_true_iff]; show (0 : Int) < (d : Int) - n; omega)]
      simp only [List.filter_nil, List.map_cons, List.map_nil, List.sum_cons, List.sum_nil, mkLoan]
      push_cast
      ring
    · rw [hstep, ih2, loanPhase_loans_eq]
      simp only [List.map_cons, List.map_nil]
      rw [if_pos (by show (0 : Int) < (d : Int) - n; omega)]
      simp only [List.filter_cons, List.filter_nil]
      by_cases hend : n + 1 = d
      · rw [if_pos hend]
        rw [if_neg (by simp only [decide_eq_true_iff]; show ¬ (0 : Int) < (d : Int) - ↑n - 1; omega)]
      · rw [if_neg hend]
        rw [if_pos (by simp only [decide_eq_true_iff]; show (0 : Int) < (d : Int) - ↑n - 1; omega)]
        simp only [mkLoan, Loan.mk.injEq, true_and, and_true]
        push_cast
        ring

/-- C6: for every loan with a positive term the daily repayment equals
`(principal + principal × rate × term)/term` — in particular 105 for
principal 1000, term 10, rate 0.005 —; on each day-advance loan step every
active loan's repayment is debited from cash and its remaining-days counter
decremented by one, every loan with remaining days ≤ 0 being purged at the
end of the step; and a fresh loan of term `d` survives exactly `d` loan
steps, its counter reading `d - n` after `n` steps, and is removed after
step `d` with exactly `d` repayments debited. -/
theorem claim6_loan_schedule (p rate m : ℚ) (d : Nat) (hd : 0 < d) :
    (∀ (q : ℚ) (dd : Int) (rr : ℚ),
      (mkLoan q dd rr).dailyRepayment = (q + q * rr * (dd : ℚ)) / (dd : ℚ)) ∧
    (mkLoan 1000 10 (1 / 200)).dailyRepayment = 105 ∧
    (∀ (m2 : ℚ) (ls : List Loan),
      (loanPhase m2 ls).1 =
        m2 - ((ls.filter (fun l => decide (0 < l.daysLeft))).map
          (fun l => l.dailyRepayment)).sum ∧
      (loanPhase m2 ls).2 =
        (ls.map (fun l => if 0 < l.daysLeft then { l with daysLeft := l.daysLeft - 1 }
          else l)).filter (fun l => decide (0 < l.daysLeft)) ∧
      ∀ l ∈ (loanPhase m2 ls).2, 0 < l.daysLeft) ∧
    (∀ n : Nat, n ≤ d →
      (loanIter n (m, [mkLoan p (d : Int) rate])).1 =
        m - n * ((p + p * rate * (d : ℚ)) / (d : ℚ)) ∧
      (loanIter n (m, [mkLoan p (d : Int) rate])).2 =
        (if n = d then []
          else [{ mkLoan p (d : Int) rate with daysLeft := (d : Int) - n }])) := by
  refine ⟨fun q dd rr => rfl, ?_, ?_, loanIter_single p rate d hd m⟩
  · show ((1000 : ℚ) + 1000 * (1 / 200) * ((10 : Int) : ℚ)) / ((10 : Int) : ℚ) = 105
    norm_num
  · intro m2 ls
    refine ⟨loanPhase_money_eq m2 ls, loanPhase_loans_eq m2 ls, ?_⟩
    intro l hl
    rw [loanPhase_loans_eq] at hl
    have := List.mem_filter.mp hl
    simpa using this.2

theorem claim6_loan_schedule_witness :
    (mkLoan 1000 10 (1 / 200)).dailyRepayment = 105 :=
  (claim6_loan_schedule 1000 (1 / 200) 0 10 (by decide)).2.1

theorem randomInt_0_99 (g : Nat → Nat) (k : Nat) :
    randomInt g 0 99 k = (((g k % 100 : Nat) : Int), k + 1) := by
  unfold randomInt
  norm_num

/-- C2: in the ageing step of every day-advance each animal's age and
days-since-purchase are incremented by exactly one, and the animal then dies
of old age exactly when its incremented age exceeds 30 and the single
uniform mortality roll (`random(0,99)`, one `rand()` draw) is strictly less
than its incremented age — so an animal older than 99 days dies with
certainty.  A death removes the animal from its enclosure's resident list,
drops it from the registry (it is not retained in the output list) and
decrements the total-animal counter by one. -/
theorem claim2_age_mortality (g : Nat → Nat) (a : Animal) (rest : List Animal)
    (encs : List Enclosure) (tot : Int) (k : Nat) :
    (ageAnimal a).ageDays = a.ageDays + 1 ∧
    (ageAnimal a).daysSincePurchase = a.daysSincePurchase + 1 ∧
    ((a.ageDays + 1 > 30 ∧ ((g k % 100 : Nat) : Int) < a.ageDays + 1) →
      agePhase g (a :: rest) encs tot k =
        agePhase g rest (removeAnimalFromEnclosures encs a.enclosureId a.uniqueId)
          (tot - 1) (k + 1)) ∧
    ((a.ageDays + 1 > 30 ∧ ¬ ((g k % 100 : Nat) : Int) < a.ageDays + 1) →
      agePhase g (a :: rest) encs tot k =
        (ageAnimal a :: (agePhase g rest encs tot (k + 1)).1,
          (agePhase g rest encs tot (k + 1)).2)) ∧
    (¬ a.ageDays + 1 > 30 →
      agePhase g (a :: rest) encs tot k =
        (ageAnimal a :: (agePhase g rest encs tot k).1, (agePhase g rest encs tot k).2)) ∧
    (a.ageDays + 1 > 99 → ((g k % 100 : Nat) : Int) < a.ageDays + 1) := by
  have hr := randomInt_0_99 g k
  refine ⟨rfl, rfl, ?_, ?_, ?_, ?_⟩
  · rintro ⟨h1, h2⟩
    rw [agePhase_cons_die g a rest encs tot k (by rw [ageAnimal_ageDays]; exact h1)
      (by rw [hr, ageAnimal_ageDays]; exact h2)]
    rw [hr]
  · rintro ⟨h1, h2⟩
    rw [agePhase_cons_live_old g a rest encs tot k (by rw [ageAnimal_ageDays]; exact h1)
      (by rw [hr, ageAnimal_ageDays]; exact h2)]
    rw [hr]
  · intro h1
    exact agePhase_cons_young g a rest encs tot k (by rw [ageAnimal_ageDays]; exact h1)
  · intro h1
    have hm : g k % 100 < 100 := Nat.mod_lt _ (by norm_num)
    omega

theorem claim2_age_mortality_witness :
    agePhase gZero (sampleOldAnimal :: []) [initialEnclosure] 5 0 =
      agePhase gZero []
        (removeAnimalFromEnclosures [initialEnclosure] sampleOldAnimal.enclosureId
          sampleOldAnimal.uniqueId) (5 - 1) (0 + 1) :=
  (claim2_age_mortality gZero sampleOldAnimal [] [initialEnclosure] 5 0).2.2.1 (by decide)

theorem foodDemand_counts : ∀ as : List Animal,
    foodDemand as =
      ((as.filter (fun a => decide (a.type = AnimalType.HERBIVORE))).length : Int) +
        2 * ((as.filter (fun a => decide (a.type = AnimalType.CARNIVORE))).length : Int) := by
  intro as
  induction as with
  | nil => simp [foodDemand]
  | cons a rest ih =>
    unfold foodDemand at ih ⊢
    simp only [List.map_cons, List.sum_cons]
    rw [ih]
    cases ha : a.type with
    | HERBIVORE =>
      simp only [List.filter_cons, ha]
      norm_num
      push_cast
      ring
    | CARNIVORE =>
      simp only [List.filter_cons, ha]
      norm_num
      push_cast
      ring

/-- C3: in the feeding step of every day-advance the demand is one unit per
surviving herbivore plus two per surviving carnivore; when the stock covers
the demand it is reduced by exactly the demand and no animal starves; when
the stock is strictly below the demand the stock is left completely
unchanged and the starvation loop runs, in which each surviving animal draws
its own uniform roll (`random(0,99)`) and dies exactly when the roll is
below the fixed 30% threshold, with the same dual removal (enclosure
resident list and registry) and total-counter decrement as an age death. -/
theorem claim3_feeding (g : Nat → Nat) (as : List Animal) (encs : List Enclosure)
    (tot food : Int) (k : Nat) :
    (foodDemand as =
      ((as.filter (fun a => decide (a.type = AnimalType.HERBIVORE))).length : Int) +
        2 * ((as.filter (fun a => decide (a.type = AnimalType.CARNIVORE))).length : Int)) ∧
    (food ≥ foodDemand as →
      feedPhase g as encs tot food k = (as, encs, tot, food - foodDemand as, k)) ∧
    (food < foodDemand as →
      (feedPhase g as encs tot food k).2.2.2.1 = food ∧
      feedPhase g as encs tot food k =
        ((starveLoop g as encs tot k).1, (starveLoop g as encs tot k).2.1,
          (starveLoop g as encs tot k).2.2.1, food, (starveLoop g as encs tot k).2.2.2)) ∧
    (∀ (a : Animal) (rest : List Animal) (encs2 : List Enclosure) (tot2 : Int) (k2 : Nat),
      (((g k2 % 100 : Nat) : Int) < 30 →
        starveLoop g (a :: rest) encs2 tot2 k2 =
          starveLoop g rest (removeAnimalFromEnclosures encs2 a.enclosureId a.uniqueId)
            (tot2 - 1) (k2 + 1)) ∧
      (¬ ((g k2 % 100 : Nat) : Int) < 30 →
        starveLoop g (a :: rest) encs2 tot2 k2 =
          (a :: (starveLoop g rest encs2 tot2 (k2 + 1)).1,
            (starveLoop g rest encs2 tot2 (k2 + 1)).2))) := by
  refine ⟨foodDemand_counts as, ?_, ?_, ?_⟩
  · intro h
    exact feedPhase_full g as encs tot food k h
  · intro h
    have h2 : ¬ food ≥ foodDemand as := by omega
    exact ⟨by rw [feedPhase_short g as encs tot food k h2],
      feedPhase_short g as encs tot food k h2⟩
  · intro a rest encs2 tot2 k2
    have hr := randomInt_0_99 g k2
    constructor
    · intro h
      rw [starveLoop_cons_die g a rest encs2 tot2 k2 (by rw [hr]; exact h), hr]
    · intro h
      rw [starveLoop_cons_live g a rest encs2 tot2 k2 (by rw [hr]; exact h), hr]

theorem claim3_feeding_witness :
    feedPhase gZero [sampleMale] [initialEnclosure] 1 100 0 =
      ([sampleMale], [initialEnclosure], 1, 100 - foodDemand [sampleMale], 0) :=
  (claim3_feeding gZero [sampleMale] [initialEnclosure] 1 100 0).2.1 (by decide)

/-- C8 (amended): in every day-advance every worker's cumulative days-worked
counter increases by exactly one and the remaining assignment duration
decreases by one only when it was positive; the worker's enclosure
assignments are cleared exactly when the duration counter equals 0 after
that conditional decrement — which includes workers whose counter already
was 0 before the day-advance, not only those brought to 0 by the decrement —
and the worker itself stays in the collection. -/
theorem claim8_worker_update (g : Nat → Nat) (σ : List Nat) (z : Zoo) :
    (nextDay g σ z).workers = z.workers.map workerDayUpdate ∧
    (nextDay g σ z).workers.length = z.workers.length ∧
    ∀ w : Worker,
      (workerDayUpdate w).daysWorked = w.daysWorked + 1 ∧
      (workerDayUpdate w).daysAssigned =
        (if w.daysAssigned > 0 then w.daysAssigned - 1 else w.daysAssigned) ∧
      (workerDayUpdate w).assignedEnclosures =
        (if (if w.daysAssigned > 0 then w.daysAssigned - 1 else w.daysAssigned) = 0 then []
          else w.assignedEnclosures) ∧
      (workerDayUpdate w).name = w.name ∧ (workerDayUpdate w).type = w.type ∧
      (workerDayUpdate w).salary = w.salary := by
  refine ⟨rfl, by rw [nextDay_workers]; exact List.length_map _ _, ?_⟩
  intro w
  by_cases h1 : w.daysAssigned > 0
  · simp only [workerDayUpdate, if_pos h1]
    by_cases h2 : w.daysAssigned - 1 = 0
    · simp [h1, h2]
    · simp [h1, h2]
  · simp only [workerDayUpdate, if_neg h1]
    by_cases h2 : w.daysAssigned = 0
    · simp [h1, h2]
    · simp [h1, h2]

/-- C8 counterexample: the initial cleaner holds assignment `[1]` with a
duration counter that is already 0, so no decrement can bring it to 0; yet
one day-advance clears the assignment, contradicting the claim that
assignments are cleared only when the counter reaches 0 *by the decrement*. -/
theorem claim8_counterexample :
    ((mkZoo "Z" gZero sigmaId).workers.get? 1).map (fun w => w.assignedEnclosures) =
      some [1] ∧
    ((mkZoo "Z" gZero sigmaId).workers.get? 1).map (fun w => w.daysAssigned) = some 0 ∧
    ((nextDay gZero sigmaId (mkZoo "Z" gZero sigmaId)).workers.get? 1).map
      (fun w => w.assignedEnclosures) = some [] := by
  refine ⟨rfl, rfl, ?_⟩
  rfl

theorem vetPhase_nil_animals : ∀ (ws : List Worker) (encs : List Enclosure),
    vetPhase ws [] encs = ([], encs) := by
  intro ws
  induction ws with
  | nil => intro encs; rfl
  | cons w ws ih =>
    intro encs
    by_cases h : w.type = WorkerType.VETERINARIAN ∧ w.daysAssigned > 0
    · rw [vetPhase_cons_vet w ws [] encs h, treatAnimals_nil]
      exact ih encs
    · rw [vetPhase_cons_skip w ws [] encs h]
      exact ih encs

/-- C7: from the constructor's initial state (cash 1488, food 100,
popularity 50, one herbivore temperate enclosure of capacity 5, the four
initial workers, no loans and no animals), one day-advance whose special-
visitor roll produces no special visitors (and, with no animals, no deaths
and no sickness) yields a visitor count equal to the integer truncation of
the popularity after the random drift (50 scaled by the drawn percentage),
and changes cash by exactly visitors times the total-animal count minus the
sum of all worker salaries minus the sum of all enclosure daily upkeeps. -/
theorem claim7_initial_day (g : Nat → Nat) (σ : List Nat) (z : Zoo)
    (hmoney : z.money = 1488) (hfood : z.food = 100) (hpop : z.popularity = 50)
    (hanimals : z.animals = []) (hencs : z.enclosures = [initialEnclosure])
    (hworkers : z.workers = initialWorkers) (hloans : z.loans = [])
    (hspec : (randomInt g 0 99 11).1 < 20 ∨ 50 ≤ (randomInt g 0 99 11).1) :
    (nextDay g σ z).visitors =
      toIntTrunc ((50 : ℚ) * (1 + ((randomInt g (-10) 10 10).1 : ℚ) / 100)) ∧
    (nextDay g σ z).money =
      z.money + ((nextDay g σ z).visitors : ℚ) * (((nextDay g σ z).totalAnimals : Int) : ℚ) -
        salarySum (nextDay g σ z).workers - upkeepSum (nextDay g σ z).enclosures := by
  have hA : dayAge g z = ([], z.enclosures, z.totalAnimals, 10) := by
    unfold dayAge
    rw [hanimals, agePhase_nil]
  have hS : daySick g z = ([], 10) := by
    unfold daySick
    rw [hA]
    rfl
  have hV : dayVet g z = ([], z.enclosures) := by
    unfold dayVet
    rw [hS, hA]
    exact vetPhase_nil_animals (workerPhase z.workers) z.enclosures
  have hF : dayFeed g z = ([], z.enclosures, z.totalAnimals, 100, 10) := by
    unfold dayFeed
    rw [hV, hA, hS, hfood]
    show feedPhase g [] z.enclosures z.totalAnimals 100 10 = _
    have h0 : (100 : Int) ≥ foodDemand ([] : List Animal) := by
      norm_num [foodDemand]
    rw [feedPhase_full g [] z.enclosures z.totalAnimals 100 10 h0]
    norm_num [foodDemand]
  have hd10 : (-10 : Int) ≤ (randomInt g (-10) 10 10).1 := by
    unfold randomInt
    have h0 : (0 : Int) ≤ ((g 10 % ((10 - (-10) + 1).toNat) : Nat) : Int) :=
      Int.ofNat_nonneg _
    omega
  have hvis : (nextDay g σ z).visitors =
      toIntTrunc
        (if z.popularity * (1 + ((randomInt g (-10) 10 (dayFeed g z).2.2.2.2).1 : ℚ) / 100) -
            (((dayFeed g z).1.filter (fun a => a.isSick)).length : ℚ) < 0 then 0
          else z.popularity * (1 + ((randomInt g (-10) 10 (dayFeed g z).2.2.2.2).1 : ℚ) / 100) -
            (((dayFeed g z).1.filter (fun a => a.isSick)).length : ℚ)) := rfl
  rw [hF, hpop] at hvis
  simp only [List.filter_nil, List.length_nil, Nat.cast_zero, sub_zero] at hvis
  have hnneg : ¬ (50 : ℚ) * (1 + ((randomInt g (-10) 10 10).1 : ℚ) / 100) < 0 := by
    have h1 : (-10 : ℚ) ≤ ((randomInt g (-10) 10 10).1 : ℚ) := by
      exact_mod_cast hd10
    intro hcon
    linarith
  rw [if_neg hnneg] at hvis
  refine ⟨hvis, ?_⟩
  have hm : (nextDay g σ z).money =
      (loanPhase (z.money +
          ((nextDay g σ z).visitors : ℚ) * (((nextDay g σ z).totalAnimals : Int) : ℚ) -
          salarySum (nextDay g σ z).workers - upkeepSum (nextDay g σ z).enclosures)
        z.loans).1 := rfl
  rw [hm, hloans]
  rfl

theorem claim7_initial_day_witness :
    (nextDay gZero sigmaId (mkZoo "x" gZero sigmaId)).visitors =
      toIntTrunc ((50 : ℚ) * (1 + ((randomInt gZero (-10) 10 10).1 : ℚ) / 100)) ∧
    (nextDay gZero sigmaId (mkZoo "x" gZero sigmaId)).money =
      (mkZoo "x" gZero sigmaId).money +
        ((nextDay gZero sigmaId (mkZoo "x" gZero sigmaId)).visitors : ℚ) *
          (((nextDay gZero sigmaId (mkZoo "x" gZero sigmaId)).totalAnimals : Int) : ℚ) -
        salarySum (nextDay gZero sigmaId (mkZoo "x" gZero sigmaId)).workers -
        upkeepSum (nextDay gZero sigmaId (mkZoo "x" gZero sigmaId)).enclosures :=
  claim7_initial_day gZero sigmaId (mkZoo "x" gZero sigmaId)
    rfl rfl rfl rfl rfl rfl rfl (Or.inl (by decide))

theorem claim10_build_enclosure_witness :
    ((((2 : Int) * 50 : Int) : ℚ) ≤ (mkZoo "x" gZero sigmaId).money →
      buildEnclosure (mkZoo "x" gZero sigmaId) 2 AnimalType.CARNIVORE Climate.ARCTIC =
        { mkZoo "x" gZero sigmaId with
            money := (mkZoo "x" gZero sigmaId).money - (((2 : Int) * 50 : Int) : ℚ),
            enclosures := (mkZoo "x" gZero sigmaId).enclosures ++
              [builtEnclosure (mkZoo "x" gZero sigmaId).enclosures 2
                AnimalType.CARNIVORE Climate.ARCTIC] }) ∧
    (¬ (((2 : Int) * 50 : Int) : ℚ) ≤ (mkZoo "x" gZero sigmaId).money →
      buildEnclosure (mkZoo "x" gZero sigmaId) 2 AnimalType.CARNIVORE Climate.ARCTIC =
        mkZoo "x" gZero sigmaId) :=
  claim10_build_enclosure (mkZoo "x" gZero sigmaId) 2 AnimalType.CARNIVORE Climate.ARCTIC
    (by decide) rfl
    (by
      intro e he
      have he2 := List.mem_singleton.mp (by simpa [mkZoo, refreshMarket] using he)
      rw [he2]
      decide)

theorem filterMap_get_range {α : Type} (l : List α) :
    (List.range l.length).filterMap l.get? = l := by
  induction l with
  | nil => rfl
  | cons a t ih =>
    rw [List.length_cons, List.range_succ_eq_map]
    simp only [List.filterMap_cons, List.get?_cons_zero, List.filterMap_map,
      Function.comp_def, List.get?_cons_succ]
    rw [ih]

theorem catalog_ids_lb (g : Nat → Nat) (k : Nat) (nid : Int) :
    ∀ a ∈ (getAvailableAnimals g k nid).1, nid ≤ a.uniqueId := by
  intro a ha
  simp only [getAvailableAnimals, List.mem_cons, List.not_mem_nil, or_false] at ha
  rcases ha with rfl | rfl | rfl | rfl | rfl | rfl | rfl | rfl | rfl | rfl <;>
    simp [mkCatalogAnimal]

theorem catalog_ids_nodup (g : Nat → Nat) (k : Nat) (nid : Int) :
    ((getAvailableAnimals g k nid).1.map (fun a => a.uniqueId)).Nodup := by
  simp only [getAvailableAnimals, List.map_cons, List.map_nil, mkCatalogAnimal]
  simp [List.nodup_cons]

theorem pickMarket_perm (avail : List Animal) (σ : List Nat)
    (hlen : avail.length = 10) (hσ : σ.Perm (List.range 10)) :
    (pickMarket avail σ).Perm avail := by
  have hsl : σ.length = 10 := by
    rw [hσ.length_eq, List.length_range]
  have htake : σ.take (min 10 avail.length) = σ := by
    rw [hlen]
    exact List.take_of_length_le (by omega)
  unfold pickMarket
  rw [htake]
  have hp : (σ.filterMap avail.get?).Perm
      ((List.range avail.length).filterMap avail.get?) := by
    refine List.Perm.filterMap _ ?_
    rw [hlen]
    exact hσ
  rw [filterMap_get_range] at hp
  exact hp

/-- C9: with the index permutation ranging over the ten catalog slots, the
market refresh fully replaces the offer list with one of size exactly
min(10, catalog size) that is a permutation of the freshly instantiated
ten-species catalog, contains no duplicate catalog entries (all unique ids
distinct), and retains no offer from before the refresh (old offers carry
ids below the id counter, fresh ones ids at or above it). -/
theorem claim9_market_refresh (g : Nat → Nat) (σ : List Nat) (z : Zoo)
    (hσ : σ.Perm (List.range 10))
    (hold : ∀ m ∈ z.marketAnimals, m.uniqueId < z.nextAnimalId) :
    (refreshMarket g σ z).marketAnimals.length =
      min 10 (getAvailableAnimals g 0 z.nextAnimalId).1.length ∧
    (refreshMarket g σ z).marketAnimals.Perm
      (getAvailableAnimals g 0 z.nextAnimalId).1 ∧
    ((refreshMarket g σ z).marketAnimals.map (fun a => a.uniqueId)).Nodup ∧
    ∀ m ∈ z.marketAnimals, m ∉ (refreshMarket g σ z).marketAnimals := by
  have hlen : (getAvailableAnimals g 0 z.nextAnimalId).1.length = 10 := rfl
  have hperm : ((refreshMarket g σ z).marketAnimals).Perm
      (getAvailableAnimals g 0 z.nextAnimalId).1 :=
    pickMarket_perm _ σ hlen hσ
  refine ⟨?_, hperm, ?_, ?_⟩
  · rw [hperm.length_eq, hlen]
    omega
  · have := catalog_ids_nodup g 0 z.nextAnimalId
    exact ((hperm.map (fun a => a.uniqueId)).nodup_iff).mpr this
  · intro m hm hmem
    have hin : m ∈ (getAvailableAnimals g 0 z.nextAnimalId).1 := hperm.mem_iff.mp hmem
    have hge : z.nextAnimalId ≤ m.uniqueId := catalog_ids_lb g 0 z.nextAnimalId m hin
    have hlt := hold m hm
    omega

theorem claim9_market_refresh_witness :
    (refreshMarket gZero sigmaId (mkZoo "x" gZero sigmaId)).marketAnimals.length =
      min 10 (getAvailableAnimals gZero 0 (mkZoo "x" gZero sigmaId).nextAnimalId).1.length ∧
    (refreshMarket gZero sigmaId (mkZoo "x" gZero sigmaId)).marketAnimals.Perm
      (getAvailableAnimals gZero 0 (mkZoo "x" gZero sigmaId).nextAnimalId).1 ∧
    ((refreshMarket gZero sigmaId (mkZoo "x" gZero sigmaId)).marketAnimals.map
      (fun a => a.uniqueId)).Nodup ∧
    ∀ m ∈ (mkZoo "x" gZero sigmaId).marketAnimals,
      m ∉ (refreshMarket gZero sigmaId (mkZoo "x" gZero sigmaId)).marketAnimals :=
  claim9_market_refresh gZero sigmaId (mkZoo "x" gZero sigmaId)
    (by decide) (by decide)

end ZooSim
